import Mathlib

/-!
Verification of the Antler portfolio scraper (src/fetcher.ts, src/utils.ts,
src/types.ts) against its natural-language specification.

The scraper's pure logic is shallowly embedded below.  The external
collaborators that the spec itself leaves out of scope (the headless browser
that renders a URL into HTML, the cheerio HTML-tree query library and the
blob store) are modelled at their interface: a page is a structure holding
the query results the code consumes (selector hits, anchor texts, raw
markup), page fetching is a function from page numbers to either an error
or the extracted records, and persistence is recorded as data in the run
result.  Everything the repository itself computes (slugs, classifiers,
fallback chains, the pagination/dedup loop) is translated faithfully.

JavaScript string semantics are mirrored over `List Char`:
`String.prototype.trim` / `\s` is modelled on the ASCII whitespace
characters (space, tab, newline, carriage return), `toLowerCase` /
`toUpperCase` via `Char.toLower` / `Char.toUpper` (ASCII-faithful), and
`includes` as substring containment.
-/

/-- ASCII whitespace, the model of the JS `\s` class and of `trim`. -/
def isSpaceChar (c : Char) : Bool := c = ' ' || c = '\t' || c = '\n' || c = '\r'

/-- Drop whitespace from both ends of a character list. -/
def trimChars (l : List Char) : List Char :=
  ((l.dropWhile isSpaceChar).reverse.dropWhile isSpaceChar).reverse

/-- Model of `String.prototype.trim`. -/
def jsTrim (s : String) : String := String.mk (trimChars s.data)

/-- Model of `String.prototype.startsWith`. -/
def strStartsWith (s p : String) : Bool := p.data.isPrefixOf s.data

/-- Substring occurrence of `needle` in `hay` (JS `includes`). -/
def hasSub : List Char → List Char → Bool
  | needle, [] => needle.isEmpty
  | needle, c :: t => needle.isPrefixOf (c :: t) || hasSub needle t

/-- Model of `hay.includes(needle)`. -/
def strHasSub (hay needle : String) : Bool := hasSub needle.data hay.data

/-- Model of `String.prototype.toLowerCase` (ASCII). -/
def toLowerStr (s : String) : String := String.mk (s.data.map Char.toLower)

/-- Characters matched by the regex class `[a-z0-9]` in `createSlug`. -/
def isSlugChar (c : Char) : Bool := ('a' ≤ c && c ≤ 'z') || ('0' ≤ c && c ≤ '9')

/-- Model of `.replace(/[^a-z0-9]+/g, '-')`: characters in `[a-z0-9]` are
copied, every maximal run of other characters becomes a single `'-'`.  The
single dash for a run is emitted at the run's last character (the character
not followed by another non-alphanumeric one), which produces the same
output as replacing the whole run. -/
def collapseRuns : List Char → List Char
  | [] => []
  | [c] => if isSlugChar c then [c] else ['-']
  | c :: d :: cs =>
    if isSlugChar c then c :: collapseRuns (d :: cs)
    else if isSlugChar d then '-' :: collapseRuns (d :: cs)
    else collapseRuns (d :: cs)

/-- Model of `.replace(/(^-|-$)/g, '')`: remove one leading and one trailing
hyphen, if present. -/
def stripEdges (l : List Char) : List Char :=
  let l1 := if l.head? = some '-' then l.tail else l
  if l1.getLast? = some '-' then l1.dropLast else l1

/-- `createSlug` from src/utils.ts: lowercase, collapse non-alphanumeric runs
to `'-'`, strip a leading/trailing separator. -/
def createSlug (name : String) : String :=
  String.mk (stripEdges (collapseRuns (name.data.map Char.toLower)))

/-- Prepend a character to the first of a list of token lists. -/
def consHead (c : Char) : List (List Char) → List (List Char)
  | [] => [[c]]
  | t :: ts => (c :: t) :: ts

/-- The maximal runs of `[a-z0-9]` characters of a list, in order. -/
def slugTokens : List Char → List (List Char)
  | [] => []
  | [c] => if isSlugChar c then [[c]] else []
  | c :: d :: cs =>
    if isSlugChar c then
      if isSlugChar d then consHead c (slugTokens (d :: cs))
      else [c] :: slugTokens (d :: cs)
    else slugTokens (d :: cs)

/-- Join token lists with a single `'-'` between consecutive tokens. -/
def joinDash : List (List Char) → List Char
  | [] => []
  | [t] => t
  | t :: ts => t ++ '-' :: joinDash ts

/-- Spec-side rendering of the slug rule, written from the specification's
words: "lowercase, non-alphanumeric runs collapsed to a single separator, no
leading/trailing separator" — i.e. the maximal alphanumeric tokens of the
lowercased name joined by single `'-'` separators. -/
def slugSpec (name : String) : String :=
  String.mk (joinDash (slugTokens (name.data.map Char.toLower)))

example : createSlug "Acme Corp!" = "acme-corp" := by decide
example : slugSpec "Acme Corp!" = "acme-corp" := by decide
example : createSlug "  !!  " = "" := by decide
example : createSlug "A--b__9" = "a-b-9" := by decide

/-- The fixed gazetteer of `isLocationText` (src/fetcher.ts lines 378-383). -/
def locationsList : List String :=
  ["Australia", "Brazil", "Canada", "Denmark", "Finland", "France", "Germany",
   "India", "Indonesia", "Japan", "Kenya", "Korea", "Malaysia", "Netherlands",
   "Nigeria", "Norway", "Saudi Arabia", "Singapore", "Sweden", "UK", "US",
   "United Arab Emirates", "Vietnam", "Spain", "Portugal"]

/-- `isLocationText`: true when the lowercased text contains some lowercased
gazetteer entry. -/
def isLocationText (text : String) : Bool :=
  locationsList.any (fun loc => strHasSub (toLowerStr text) (toLowerStr loc))

/-- The fixed sector vocabulary of `isSectorText` (src/fetcher.ts lines 388-391). -/
def sectorsList : List String :=
  ["Energy and ClimateTech", "Climate", "B2B Software", "ConsumerTech", "FinTech",
   "Health and BioTech", "Real Estate and PropTech", "Industrials"]

def isUpperAZ (c : Char) : Bool := 'A' ≤ c && c ≤ 'Z'

def isLowerAZ (c : Char) : Bool := 'a' ≤ c && c ≤ 'z'

/-- Recognizer for the regex `/^[A-Z][a-z]+( [A-Z][a-z]+)*$/` as a three-state
machine: state 0 expects an uppercase word start, state 1 has seen the
uppercase letter and needs at least one lowercase letter, state 2 is inside
the lowercase tail and may close the word at a space or at the end. -/
def titleCaseAux : Nat → List Char → Bool
  | 2, [] => true
  | _, [] => false
  | 0, c :: rest => if isUpperAZ c then titleCaseAux 1 rest else false
  | 1, c :: rest => if isLowerAZ c then titleCaseAux 2 rest else false
  | _, c :: rest =>
    if isLowerAZ c then titleCaseAux 2 rest
    else if c = ' ' then titleCaseAux 0 rest
    else false

/-- `text.match(/^[A-Z][a-z]+( [A-Z][a-z]+)*$/) !== null`. -/
def titleCaseShape (text : String) : Bool := titleCaseAux 0 text.data

/-- `isSectorText`: sector vocabulary containment, or a generic industry
token, or the proper-case word-sequence shape. -/
def isSectorText (text : String) : Bool :=
  sectorsList.any (fun sec => strHasSub (toLowerStr text) (toLowerStr sec)) ||
  strHasSub (toLowerStr text) "tech" ||
  strHasSub (toLowerStr text) "software" ||
  strHasSub (toLowerStr text) "service" ||
  strHasSub (toLowerStr text) "platform" ||
  titleCaseShape text

example : isLocationText "Singapore" = true := by decide
example : isSectorText "FinTech" = true := by decide
example : isSectorText "Singapore" = true := by decide
example : isLocationText "FinTech" = false := by decide
example : isSectorText "fintech" = true := by decide
example : titleCaseShape "FinTech" = false := by decide
example : titleCaseShape "Real Estate" = true := by decide

/-- Lowercased reverse-order token match: does the reversed list start with
`tok` (compared case-insensitively)?  `tok` is a reversed lowercase token. -/
def revTokenMatch (r : List Char) (tok : List Char) : Bool :=
  tok.isPrefixOf (r.map Char.toLower)

/-- The suffix-strip of `location.replace(/,?\s*(UK|USA|US)$/i, '')`.
Returns the part before the matched region when the regex matches (the
leftmost possible start wins, which strips the country token, all
whitespace immediately before it, and one optional comma before that),
`none` when it does not. -/
def stripCountrySuffix (l : List Char) : Option (List Char) :=
  let r := l.reverse
  let afterTok : Option (List Char) :=
    if revTokenMatch r ['a', 's', 'u'] then some (r.drop 3)
    else if revTokenMatch r ['k', 'u'] then some (r.drop 2)
    else if revTokenMatch r ['s', 'u'] then some (r.drop 2)
    else none
  match afterTok with
  | some rest =>
    let rest1 := rest.dropWhile isSpaceChar
    let rest2 := match rest1 with
      | ',' :: rs => rs
      | other => other
    some rest2.reverse
  | none => none

/-- `normalizeLocation` from src/utils.ts:
`location.replace(/,?\s*(UK|USA|US)$/i, '').trim()`. -/
def normalizeLocation (location : String) : String :=
  match stripCountrySuffix location.data with
  | some rest => jsTrim (String.mk rest)
  | none => jsTrim location

example : normalizeLocation "US" = "" := by decide
example : normalizeLocation "UK" = "" := by decide
example : normalizeLocation "USA" = "" := by decide
example : normalizeLocation "London, UK" = "London" := by decide
example : normalizeLocation "Oslo" = "Oslo" := by decide
example : normalizeLocation "Singapore" = "Singapore" := by decide
example : normalizeLocation "  Berlin  " = "Berlin" := by decide

/-- `AntlerCompany` from src/types.ts.  `founded_year` is a `Nat` (the JS
number is a non-negative year or the sentinel 0). -/
structure AntlerCompany where
  id : String
  name : String
  slug : String
  website : String
  description : String
  founded_year : Nat
  location : String
  sector : String
  logo_url : String
  url : String
  api : String
deriving DecidableEq

/-- An element seen by the description scan `$card.find('*')`: its text and
whether it `is('a, img, script, style')`. -/
structure DocElem where
  text : String
  isAnchorImgScriptStyle : Bool
deriving DecidableEq

/-- The view of a resolved company card, i.e. the results of the cheerio
queries that `extractCompanyFromElement` performs on `$card`.  Selector
fields are `Option String`: `none` when the selector matches nothing,
`some` of the raw (untrimmed) text/attribute otherwise.  The query library
is an external collaborator (spec section 1), so a card is modelled at this
interface. -/
structure Card where
  /-- first match of `h1, h2, h3, h4, h5, h6` (text, untrimmed). -/
  headHeading : Option String
  /-- first match of the class hints `name`/`title`/`company` (text). -/
  headNameClass : Option String
  /-- first match of `strong, b` (text). -/
  headStrong : Option String
  /-- `$card.find('img').first().attr('alt')`. -/
  imgAlt : Option String
  /-- first match of the filtered `p:not(...)` description selector (text). -/
  headPara : Option String
  /-- first match of the `description`/`summary`/`intro` class hints (text). -/
  headDescClass : Option String
  /-- first match of the nested `div:not(...) p` selector (text). -/
  headNestedPara : Option String
  /-- `$card.find('*')` in document order, for the long-text-block scan. -/
  descendants : List DocElem
  /-- texts of `$card.find('a[href="#"]')` in document order (untrimmed). -/
  hashLinkTexts : List String
  /-- `$card.text()`. -/
  cardText : String
  /-- `$card.find('img').first().attr('src')`. -/
  imgSrc : Option String
  /-- `$card.html()` (can be null). -/
  cardHtml : Option String

/-- `extractText`: first selector match's text trimmed, `''` when absent. -/
def extractText (q : Option String) : String :=
  match q with
  | some t => jsTrim t
  | none => ""

/-- `extractAttribute`: first selector match's attribute, `''` when absent. -/
def extractAttribute (q : Option String) : String :=
  match q with
  | some a => a
  | none => ""

/-- JS `a || b` on strings: `''` is the only falsy string. -/
def orElseStr (a b : String) : String := if a = "" then b else a

/-- `website.replace(/^https?:\/\//, '')`. -/
def dropScheme (w : String) : String :=
  if strStartsWith w "https://" then String.mk (w.data.drop 8)
  else if strStartsWith w "http://" then String.mk (w.data.drop 7)
  else w

/-- JS `String.prototype.split('.')` over a character list (keeps empties). -/
def splitDot : List Char → List (List Char)
  | [] => [[]]
  | c :: cs =>
    if c = '.' then [] :: splitDot cs
    else
      match splitDot cs with
      | t :: ts => (c :: t) :: ts
      | [] => [[c]]

/-- `name.charAt(0).toUpperCase() + name.slice(1)`. -/
def capitalizeFirst (l : List Char) : List Char :=
  match l with
  | [] => []
  | c :: cs => c.toUpper :: cs

/-- The URL fallback for the company name (src/fetcher.ts lines 240-243):
host of the website, first DNS label when the host has several, capitalized. -/
def nameFromUrl (website : String) : String :=
  let host := (dropScheme website).data.takeWhile (fun c => c ≠ '/')
  let urlParts := splitDot host
  let raw := if urlParts.length > 1 then urlParts.headD [] else urlParts.getLastD []
  String.mk (capitalizeFirst raw)

/-- The ordered name fallback chain (src/fetcher.ts lines 234-244): headings,
class hints, bold text, image alt (note: the alt attribute is not trimmed),
then the website host. -/
def extractName (website : String) (card : Card) : String :=
  let name := orElseStr (extractText card.headHeading)
    (orElseStr (extractText card.headNameClass)
      (orElseStr (extractText card.headStrong)
        (extractAttribute card.imgAlt)))
  if name = "" then nameFromUrl website else name

/-- `/^\d{4}$/` on an (already trimmed) string. -/
def isFourDigits (s : String) : Bool :=
  s.data.length = 4 && s.data.all Char.isDigit

/-- The filter of the long-text-block description scan
(src/fetcher.ts lines 256-262). -/
def descFilter (e : DocElem) : Bool :=
  let t := jsTrim e.text
  t.length > 20 && t.length < 300 && !(strHasSub t "http") &&
    !(isFourDigits t) && !e.isAnchorImgScriptStyle

/-- The description fallback chain before the final synthesis step
(src/fetcher.ts lines 249-266): three selector fallbacks, then — when the
result is empty or shorter than 10 — the first matching long text block. -/
def descBeforeSynth (card : Card) : String :=
  let description := orElseStr (extractText card.headPara)
    (orElseStr (extractText card.headDescClass) (extractText card.headNestedPara))
  if description = "" ∨ description.length < 10 then
    match (card.descendants.filter descFilter).head? with
    | some e => jsTrim e.text
    | none => description
  else description

/-- The full description extraction including the synthesis fallback
(src/fetcher.ts lines 268-270). -/
def extractDescription (name : String) (card : Card) : String :=
  let d := descBeforeSynth card
  if d = "" ∨ d.length < 5 then name ++ " is a portfolio company of Antler."
  else d

/-- The placeholder-anchor location/sector classification
(src/fetcher.ts lines 277-304): with at least two `href="#"` anchors the
first two are classified in order, with exactly one it is classified alone,
location first. -/
def classifyAnchors (texts : List String) : String × String :=
  match texts with
  | t1 :: t2 :: _ =>
    let firstLink := jsTrim t1
    let secondLink := jsTrim t2
    if isLocationText firstLink then
      (firstLink, if isSectorText secondLink then secondLink else "")
    else if isSectorText firstLink then
      (if isLocationText secondLink then secondLink else "", firstLink)
    else ("", "")
  | [t] =>
    let linkText := jsTrim t
    if isLocationText linkText then (linkText, "")
    else if isSectorText linkText then ("", linkText)
    else ("", "")
  | [] => ("", "")

/-- The bracket-token scan `cardText.match(/\[([^\]]+)\]/g)` as a state
machine: outside brackets (`none`) it looks for `'['`; inside (`some acc`)
it accumulates characters (in reverse) until `']'` closes a non-empty
token.  An unclosed bracket yields no further tokens, an empty `[]` yields
none and scanning continues. -/
def bracketScan : Option (List Char) → List Char → List (List Char)
  | _, [] => []
  | none, c :: rest =>
    if c = '[' then bracketScan (some []) rest else bracketScan none rest
  | some acc, c :: rest =>
    if c = ']' then
      if acc.isEmpty then bracketScan none rest
      else acc.reverse :: bracketScan none rest
    else bracketScan (some (c :: acc)) rest

/-- The bracket fallback tokens: each match with all `'['`/`']'` characters
removed (`match.replace(/[\[\]]/g, '')`) and trimmed. -/
def bracketTokens (cardText : String) : List String :=
  (bracketScan none cardText.data).map
    (fun tok => jsTrim (String.mk (tok.filter (fun c => c ≠ '[' && c ≠ ']'))))

/-- The bracket-fallback classification loop (src/fetcher.ts lines 310-318). -/
def classifyBrackets : String × String → List String → String × String
  | ls, [] => ls
  | (location, sector), text :: rest =>
    if location = "" ∧ isLocationText text then classifyBrackets (text, sector) rest
    else if sector = "" ∧ isSectorText text ∧ ¬ isLocationText text then
      classifyBrackets (location, text) rest
    else classifyBrackets (location, sector) rest

/-- Location/sector extraction: placeholder anchors first, bracket tokens as
fallback only when both came out empty (src/fetcher.ts lines 277-320). -/
def extractLocSector (card : Card) : String × String :=
  let ls := classifyAnchors card.hashLinkTexts
  if ls.1 = "" ∧ ls.2 = "" then classifyBrackets ("", "") (bracketTokens card.cardText)
  else ls

/-- Logo URL normalization (src/fetcher.ts lines 323-328). -/
def extractLogo (card : Card) : String :=
  let logoUrl := extractAttribute card.imgSrc
  if logoUrl ≠ "" ∧ ¬ (strStartsWith logoUrl "http" = true) then
    if strStartsWith logoUrl "//" then "https:" ++ logoUrl
    else if strStartsWith logoUrl "/" then "https://www.antler.co" ++ logoUrl
    else "https://" ++ logoUrl
  else logoUrl

/-- JS word characters `[A-Za-z0-9_]`, for the `\b` boundaries. -/
def isWordChar (c : Char) : Bool := c.isAlpha || c.isDigit || c = '_'

/-- Line terminators not matched by an un-flagged JS `.`. -/
def isLineTerm (c : Char) : Bool := c = '\n' || c = '\r'

/-- Parse the year token `(?:19[4-9]\d|20[0-2]\d)` at the head of the list,
returning its value and the remaining characters. -/
def yearDigits : List Char → Option (Nat × List Char)
  | c1 :: c2 :: c3 :: c4 :: rest =>
    if c1 = '1' && c2 = '9' && '4' ≤ c3 && c3 ≤ '9' && c4.isDigit then
      some (1900 + (c3.toNat - 48) * 10 + (c4.toNat - 48), rest)
    else if c1 = '2' && c2 = '0' && '0' ≤ c3 && c3 ≤ '2' && c4.isDigit then
      some (2000 + (c3.toNat - 48) * 10 + (c4.toNat - 48), rest)
    else none
  | _ => none

/-- The lazy `.*?(\b(?:19[4-9]\d|20[0-2]\d)\b)` scan after an image tag:
try the boundary-checked year token at each position, consuming one
non-line-terminator character on failure.  `prev` is the character just
before the current position (for the left `\b`). -/
def findYearFrom (prev : Char) : List Char → Option Nat
  | [] => none
  | c :: cs =>
    match yearDigits (c :: cs) with
    | some (y, rest) =>
      if !isWordChar prev && (match rest.head? with
          | some d => !isWordChar d
          | none => true) then some y
      else if isLineTerm c then none else findYearFrom c cs
    | none => if isLineTerm c then none else findYearFrom c cs

/-- Skip `[^>]*>`: the rest after the first `'>'`, if any. -/
def dropToGt : List Char → Option (List Char)
  | [] => none
  | c :: cs => if c = '>' then some cs else dropToGt cs

/-- The structural founded-year regex
`/<img[^>]*>.*?(\b(?:19[4-9]\d|20[0-2]\d)\b)/` over the card's raw markup:
at each occurrence of `<img`, skip to the closing `'>'` of the tag and scan
forward (without crossing a line terminator) for a boundary-delimited year
token; the first image tag that is followed by such a token wins. -/
def structuralYear : List Char → Option Nat
  | [] => none
  | c :: cs =>
    if "<img".data.isPrefixOf (c :: cs) then
      match dropToGt ((c :: cs).drop 4) with
      | some rest =>
        match findYearFrom '>' rest with
        | some y => some y
        | none => structuralYear cs
      | none => structuralYear cs
    else structuralYear cs

example : structuralYear "<img src=a.png> founded 2019 x".data = some 2019 := by decide
example : structuralYear "<img src=a.png>".data = none := by decide
example : structuralYear "2019 <img src=a.png>".data = none := by decide
example : structuralYear "<img> x12021b <img alt=y> 1955!".data = some 1955 := by decide
example : structuralYear ("<img>" ++ "\n" ++ "2019").data = none := by decide
example : structuralYear "<img> 1939 2030 1940".data = some 1940 := by decide

/-- `extractCompanyFromElement` (src/fetcher.ts lines 214-365), after card
resolution: builds the record from the candidate's `href` and the resolved
card, or returns `none` for a missing/short website or name.  The ambient
`new Date().getFullYear()` is the parameter `currentYear`.  The original's
per-candidate `try`/`catch` has no failing operation in this pure model. -/
def extractCompanyFromElement (currentYear : Nat) (website : String)
    (card : Card) : Option AntlerCompany :=
  if website = "" ∨ website.length < 5 then none
  else if extractName website card = "" ∨ (extractName website card).length < 2 then
    none
  else
    some {
      id := "antler-" ++ createSlug (extractName website card)
      name := jsTrim (extractName website card)
      slug := createSlug (extractName website card)
      website := if strStartsWith website "http" then website else "https://" ++ website
      description := jsTrim (extractDescription (extractName website card) card)
      founded_year :=
        match structuralYear (extractAttribute card.cardHtml).data with
        | some year => if 1940 ≤ year ∧ year ≤ currentYear then year else 0
        | none => 0
      location := orElseStr (normalizeLocation (extractLocSector card).1) "Unknown"
      sector := orElseStr (extractLocSector card).2 "Unknown"
      logo_url := orElseStr (extractLogo card) ""
      url := "https://www.antler.co/portfolio/" ++ createSlug (extractName website card)
      api := "https://antler-api.github.io/companies/" ++
        createSlug (extractName website card) ++ ".json" }

/-- A card with every query empty, for building concrete examples. -/
def emptyCard : Card :=
  { headHeading := none, headNameClass := none, headStrong := none,
    imgAlt := none, headPara := none, headDescClass := none,
    headNestedPara := none, descendants := [], hashLinkTexts := [],
    cardText := "", imgSrc := none, cardHtml := none }

example :
    (extractCompanyFromElement 2026 "https://nimbus-app.example"
        { emptyCard with headHeading := some "Nimbus" }).map
      (fun c => (c.name, c.slug, c.description)) =
    some ("Nimbus", "nimbus", "Nimbus is a portfolio company of Antler.") := by
  decide

example :
    (extractCompanyFromElement 2026 "https://sgfin.example"
        { emptyCard with headHeading := some "SgFin",
                         hashLinkTexts := ["Singapore", "FinTech"] }).map
      (fun c => (c.location, c.sector)) =
    some ("Singapore", "FinTech") := by
  decide

/-- A candidate anchor element on a page: its `href` attribute, its own card
view (the starting point of card resolution) and the `closest(selector)`
ancestor lookup, modelled at the query-library interface. -/
structure CandidateElem where
  href : Option String
  selfView : Card
  closest : String → Option Card

/-- `$(el).attr('href') || ''`. -/
def hrefOf (a : CandidateElem) : String := extractAttribute a.href

/-- The ordered ancestor-hint selector list of card resolution
(src/fetcher.ts line 224). -/
def parentSelectors : List String :=
  ["[class*=card]", "[class*=item]", "[class*=company]", "div", "li"]

/-- One pass of the card-resolution loop body over the remaining selectors:
take the first `closest` hit whose trimmed text is strictly longer than the
current best's and stop there (src/fetcher.ts lines 222-231). -/
def resolveCardGo (el : CandidateElem) : List String → Card → Card
  | [], card => card
  | sel :: rest, card =>
    match el.closest sel with
    | some parent =>
      if (jsTrim parent.cardText).length > (jsTrim card.cardText).length then parent
      else resolveCardGo el rest card
    | none => resolveCardGo el rest card

/-- Card resolution: widen from the anchor itself. -/
def resolveCard (el : CandidateElem) : Card := resolveCardGo el parentSelectors el.selfView

/-- A rendered page as consumed by `extractCompaniesFromCurrentPage`:
all anchor elements in document order, and — when a `[class*="portfolio"]`
container exists — the anchors inside it. -/
structure PageDoc where
  anchors : List CandidateElem
  portfolioContainer : Option (List CandidateElem)

/-- The denylist filter on candidate hrefs (src/fetcher.ts lines 167-185):
no social/media/self-referential host fragment, no `mailto:`/`tel:`, length
strictly greater than 10. -/
def denylist : List String :=
  ["antler.co", "linkedin.com", "twitter.com", "facebook.com", "instagram.com",
   "youtube.com", "tiktok.com", "github.com", "medium.com", "apple.com",
   "google.com", "mailto:", "tel:"]

def linkOk (a : CandidateElem) : Bool :=
  let href := hrefOf a
  href ≠ "" && denylist.all (fun d => !(strHasSub href d)) && href.length > 10

/-- The broad candidate selector `$('a[href^="https://"]')`. -/
def baseCompanyLinks (page : PageDoc) : List CandidateElem :=
  page.anchors.filter (fun a => strStartsWith (hrefOf a) "https://")

/-- The portfolio-container narrowing (src/fetcher.ts lines 156-164): when a
`[class*="portfolio"]` container exists and holds at least one secure-scheme
anchor, candidates are restricted to it. -/
def scopedCompanyLinks (page : PageDoc) : List CandidateElem :=
  match page.portfolioContainer with
  | some inner =>
    if (inner.filter (fun a => strStartsWith (hrefOf a) "https://")).length > 0 then
      inner.filter (fun a => strStartsWith (hrefOf a) "https://")
    else baseCompanyLinks page
  | none => baseCompanyLinks page

/-- Candidate link discovery (src/fetcher.ts lines 152-185): the scoped
secure-scheme anchors filtered by the denylist. -/
def selectCompanyLinks (page : PageDoc) : List CandidateElem :=
  (scopedCompanyLinks page).filter linkOk

/-- The per-page `processedWebsites` dedup (src/fetcher.ts lines 189-201):
keep the first candidate for each exact href string.  `seen` is the set of
hrefs already processed, as a list. -/
def dedupByHref : List CandidateElem → List String → List CandidateElem
  | [], _ => []
  | el :: rest, seen =>
    if seen.contains (hrefOf el) then dedupByHref rest seen
    else el :: dedupByHref rest (hrefOf el :: seen)

/-- `extractCompaniesFromCurrentPage` (src/fetcher.ts lines 146-212): the
candidates, deduplicated by exact href, put through
`extractCompanyFromElement` (the seen-set is updated before extraction and
independently of its success, so dedup and extraction factor apart). -/
def extractCompaniesFromCurrentPage (currentYear : Nat) (page : PageDoc) :
    List AntlerCompany :=
  (dedupByHref (selectCompanyLinks page) []).filterMap
    (fun el => extractCompanyFromElement currentYear (hrefOf el) (resolveCard el))

/-- The duplicate filter of the merge step (src/fetcher.ts lines 113-115):
`pageCompanies.filter(c => !existingSlugs.has(c.slug))`. -/
def filterNewCompanies (companies pageCompanies : List AntlerCompany) :
    List AntlerCompany :=
  let existingSlugs := companies.map (fun c => c.slug)
  pageCompanies.filter (fun c => !(existingSlugs.contains c.slug))

/-- The observable outcome of the page loop of `extractCompanyData`
(src/fetcher.ts lines 73-144).  `visited` and `chunks` record, per fetched
page in order, the page number and the list of records appended after the
dedup filter (empty on a halting visit); they are observations of the loop
trace, not extra state. -/
structure LoopResult where
  currentPage : Nat
  hasMorePages : Bool
  companies : List AntlerCompany
  processedCompanies : Nat
  visited : List Nat
  chunks : List (List AntlerCompany)

/-- The `while (hasMorePages && currentPage <= maxPages)` loop
(src/fetcher.ts lines 79-140), with the remaining page budget
`maxPages + 1 - currentPage` as structural fuel.  `fetch` bundles the
navigation, content wait and per-page extraction; its `Except.error` case is
the uncaught error caught at lines 136-139, which only clears
`hasMorePages` (nothing is pushed to the progress error list). -/
def extractLoop (fetch : Nat → Except String (List AntlerCompany)) :
    Nat → Nat → List AntlerCompany → Nat → LoopResult
  | 0, cp, companies, processed =>
    { currentPage := cp, hasMorePages := true, companies := companies,
      processedCompanies := processed, visited := [], chunks := [] }
  | fuel + 1, cp, companies, processed =>
    match fetch cp with
    | Except.error _ =>
      { currentPage := cp, hasMorePages := false, companies := companies,
        processedCompanies := processed, visited := [cp], chunks := [[]] }
    | Except.ok pageCompanies =>
      if pageCompanies.isEmpty then
        { currentPage := cp, hasMorePages := false, companies := companies,
          processedCompanies := processed, visited := [cp], chunks := [[]] }
      else
        let newCompanies := filterNewCompanies companies pageCompanies
        if newCompanies.isEmpty then
          { currentPage := cp, hasMorePages := false, companies := companies,
            processedCompanies := processed, visited := [cp], chunks := [[]] }
        else
          let r := extractLoop fetch fuel (cp + 1) (companies ++ newCompanies)
            (processed + newCompanies.length)
          { r with visited := cp :: r.visited, chunks := newCompanies :: r.chunks }

/-- `extractCompanyData`: run the loop from page 1 with empty accumulated
state; the fuel `maxPages` makes the guard `currentPage <= maxPages` exact. -/
def extractCompanyData (fetch : Nat → Except String (List AntlerCompany))
    (maxPages : Nat) : LoopResult :=
  extractLoop fetch maxPages 1 [] 0

/-- `ScrapingProgress` from src/types.ts. -/
structure ScrapingProgress where
  totalCompanies : Nat
  processedCompanies : Nat
  currentPage : Nat
  errors : List String
deriving DecidableEq

/-- The observable outcome of `scrapePortfolio` (src/fetcher.ts lines
51-70): whether it completed (instead of rethrowing), the accumulated
records, the progress object, the records written by
`generateOutputFiles` (`none` when it was never reached), and the fetched
page numbers. -/
structure RunResult where
  completed : Bool
  companies : List AntlerCompany
  progress : ScrapingProgress
  persisted : Option (List AntlerCompany)
  visited : List Nat

/-- `scrapePortfolio`: navigate to the base URL (`gotoBase`), then extract
all pages and generate the output files.  Only this outer catch pushes to
`progress.errors`; it fires for the initial navigation (in which case the
output generation is skipped and the error rethrown), not for in-loop
errors, which `extractCompanyData` swallows. -/
def scrapePortfolio (gotoBase : Except String Unit)
    (fetch : Nat → Except String (List AntlerCompany)) (maxPages : Nat) : RunResult :=
  match gotoBase with
  | Except.error e =>
    { completed := false, companies := [],
      progress := { totalCompanies := 0, processedCompanies := 0, currentPage := 0,
                    errors := ["Scraping error: " ++ e] },
      persisted := none, visited := [] }
  | Except.ok _ =>
    let r := extractCompanyData fetch maxPages
    { completed := true, companies := r.companies,
      progress := { totalCompanies := r.companies.length,
                    processedCompanies := r.processedCompanies, currentPage := 0,
                    errors := [] },
      persisted := some r.companies, visited := r.visited }

/-- Head-character test used by the slug characterization: does the list
start with a non-alphanumeric character? -/
def headNonSlug : List Char → Bool
  | [] => false
  | c :: _ => !isSlugChar c

/-- Last-character test used by the slug characterization. -/
def lastNonSlug (l : List Char) : Bool :=
  match l.getLast? with
  | some c => !isSlugChar c
  | none => false

theorem slugTokens_head_slug {x : Char} (xs : List Char) (hx : isSlugChar x = true) :
    ∃ t ts, slugTokens (x :: xs) = (x :: t) :: ts := by
  cases xs with
  | nil => exact ⟨[], [], by simp [slugTokens, hx]⟩
  | cons e xs' =>
    cases he : isSlugChar e
    · exact ⟨[], slugTokens (e :: xs'), by simp [slugTokens, hx, he]⟩
    · cases hY : slugTokens (e :: xs') with
      | nil => exact ⟨[], [], by simp [slugTokens, hx, he, hY, consHead]⟩
      | cons t ts => exact ⟨t, ts, by simp [slugTokens, hx, he, hY, consHead]⟩

theorem slugTokens_nil_nonslug : ∀ l : List Char, slugTokens l = [] →
    ∀ x ∈ l, isSlugChar x = false := by
  intro l
  induction l with
  | nil => intro _ x hx; simp at hx
  | cons c cs ih =>
    intro h x hx
    cases cs with
    | nil =>
      cases hc : isSlugChar c
      · simp at hx; subst hx; exact hc
      · simp [slugTokens, hc] at h
    | cons d cs' =>
      cases hc : isSlugChar c
      · have h' : slugTokens (d :: cs') = [] := by simpa [slugTokens, hc] using h
        rcases List.mem_cons.mp hx with rfl | hx'
        · exact hc
        · exact ih h' x hx'
      · cases hd : isSlugChar d
        · simp [slugTokens, hc, hd] at h
        · have h2 : consHead c (slugTokens (d :: cs')) = [] := by
            simpa [slugTokens, hc, hd] using h
          cases hY : slugTokens (d :: cs') <;> simp [consHead, hY] at h2

theorem slugTokens_wf : ∀ l : List Char, ∀ t ∈ slugTokens l,
    t ≠ [] ∧ ∀ x ∈ t, isSlugChar x = true := by
  intro l
  induction l with
  | nil => intro t ht; simp [slugTokens] at ht
  | cons c cs ih =>
    intro t ht
    cases cs with
    | nil =>
      cases hc : isSlugChar c
      · simp [slugTokens, hc] at ht
      · simp [slugTokens, hc] at ht
        subst ht
        refine ⟨by simp, ?_⟩
        intro x hx
        simp at hx
        subst hx
        exact hc
    | cons d cs' =>
      cases hc : isSlugChar c
      · rw [show slugTokens (c :: d :: cs') = slugTokens (d :: cs') by
          simp [slugTokens, hc]] at ht
        exact ih t ht
      · cases hd : isSlugChar d
        · rw [show slugTokens (c :: d :: cs') = [c] :: slugTokens (d :: cs') by
            simp [slugTokens, hc, hd]] at ht
          rcases List.mem_cons.mp ht with rfl | ht'
          · refine ⟨by simp, ?_⟩
            intro x hx
            simp at hx
            subst hx
            exact hc
          · exact ih t ht'
        · obtain ⟨t₀, ts, hT⟩ := slugTokens_head_slug cs' hd
          rw [show slugTokens (c :: d :: cs') = (c :: d :: t₀) :: ts by
            simp [slugTokens, hc, hd, hT, consHead]] at ht
          rcases List.mem_cons.mp ht with rfl | ht'
          · have hw := ih (d :: t₀) (by rw [hT]; exact List.mem_cons_self _ _)
            refine ⟨by simp, ?_⟩
            intro x hx
            rcases List.mem_cons.mp hx with rfl | hx'
            · exact hc
            · exact hw.2 x hx'
          · exact ih t (by rw [hT]; exact List.mem_cons_of_mem _ ht')

theorem lastNonSlug_of_all : ∀ l : List Char, (∀ x ∈ l, isSlugChar x = false) →
    l ≠ [] → lastNonSlug l = true := by
  intro l
  induction l with
  | nil => intro _ h; exact absurd rfl h
  | cons c cs ih =>
    intro hall _
    cases cs with
    | nil => simp [lastNonSlug, hall c (by simp)]
    | cons d cs' =>
      have h2 : lastNonSlug (d :: cs') = true :=
        ih (fun x hx => hall x (List.mem_cons_of_mem _ hx)) (by simp)
      simpa [lastNonSlug, List.getLast?_cons_cons] using h2

theorem joinDash_cons_head (c : Char) (t : List Char) (ts : List (List Char)) :
    joinDash ((c :: t) :: ts) = c :: joinDash (t :: ts) := by
  cases ts <;> simp [joinDash]

theorem joinDash_ne_nil (t : List Char) (ts : List (List Char)) (ht : t ≠ []) :
    joinDash (t :: ts) ≠ [] := by
  cases ts <;> simp [joinDash, ht]

theorem joinDash_getLast_slug : ∀ ts : List (List Char),
    (∀ t ∈ ts, t ≠ [] ∧ ∀ x ∈ t, isSlugChar x = true) → ts ≠ [] →
    ∃ y, (joinDash ts).getLast? = some y ∧ isSlugChar y = true := by
  intro ts
  induction ts with
  | nil => intro _ h; exact absurd rfl h
  | cons t ts ih =>
    intro hwf _
    cases ts with
    | nil =>
      obtain ⟨hne, hall⟩ := hwf t (by simp)
      obtain ⟨y, hy⟩ := Option.isSome_iff_exists.mp (List.getLast?_isSome.mpr hne)
      exact ⟨y, by simpa [joinDash] using hy, hall y (List.mem_of_mem_getLast? hy)⟩
    | cons t₂ ts₂ =>
      obtain ⟨y, hy, hslug⟩ := ih (fun u hu => hwf u (List.mem_cons_of_mem _ hu)) (by simp)
      refine ⟨y, ?_, hslug⟩
      have hJ : joinDash (t₂ :: ts₂) ≠ [] :=
        joinDash_ne_nil _ _ (hwf t₂ (by simp)).1
      rw [show joinDash (t :: t₂ :: ts₂) = t ++ '-' :: joinDash (t₂ :: ts₂) from rfl]
      rw [List.getLast?_append]
      cases hJ2 : joinDash (t₂ :: ts₂) with
      | nil => exact absurd hJ2 hJ
      | cons z zs =>
        rw [hJ2] at hy
        simp [List.getLast?_cons_cons, hy]

theorem collapseRuns_eq (l : List Char) :
    collapseRuns l =
      (if headNonSlug l = true then ['-'] else []) ++ joinDash (slugTokens l) ++
        (if slugTokens l ≠ [] ∧ lastNonSlug l = true then ['-'] else []) := by
  induction l with
  | nil => simp [collapseRuns, slugTokens, joinDash, headNonSlug, lastNonSlug]
  | cons c cs ih =>
    cases cs with
    | nil =>
      cases hc : isSlugChar c
      · simp [collapseRuns, slugTokens, joinDash, headNonSlug, lastNonSlug, hc]
      · simp [collapseRuns, slugTokens, joinDash, headNonSlug, lastNonSlug, hc]
    | cons d cs' =>
      have hLast : lastNonSlug (c :: d :: cs') = lastNonSlug (d :: cs') := by
        simp [lastNonSlug, List.getLast?_cons_cons]
      cases hc : isSlugChar c
      · have hTok : slugTokens (c :: d :: cs') = slugTokens (d :: cs') := by
          simp [slugTokens, hc]
        cases hd : isSlugChar d
        · have hCol : collapseRuns (c :: d :: cs') = collapseRuns (d :: cs') := by
            simp [collapseRuns, hc, hd]
          rw [hCol, hTok, hLast, ih]
          simp [headNonSlug, hc, hd]
        · have hCol : collapseRuns (c :: d :: cs') = '-' :: collapseRuns (d :: cs') := by
            simp [collapseRuns, hc, hd]
          rw [hCol, hTok, hLast, ih]
          simp [headNonSlug, hc, hd]
      · cases hd : isSlugChar d
        · have hCol : collapseRuns (c :: d :: cs') = c :: collapseRuns (d :: cs') := by
            simp [collapseRuns, hc]
          have hTok : slugTokens (c :: d :: cs') = [c] :: slugTokens (d :: cs') := by
            simp [slugTokens, hc, hd]
          rw [hCol, hTok, hLast, ih]
          cases hT' : slugTokens (d :: cs') with
          | nil =>
            have hall := slugTokens_nil_nonslug (d :: cs') hT'
            have hlast : lastNonSlug (d :: cs') = true :=
              lastNonSlug_of_all _ hall (by simp)
            simp [headNonSlug, hc, hd, hT', hlast, joinDash]
          | cons t₂ ts₂ =>
            simp [headNonSlug, hc, hd, joinDash, List.append_assoc]
        · obtain ⟨t₀, ts, hT⟩ := slugTokens_head_slug cs' hd
          have hCol : collapseRuns (c :: d :: cs') = c :: collapseRuns (d :: cs') := by
            simp [collapseRuns, hc]
          have hTok : slugTokens (c :: d :: cs') = (c :: d :: t₀) :: ts := by
            simp [slugTokens, hc, hd, hT, consHead]
          rw [hCol, hTok, hLast, ih, hT, joinDash_cons_head]
          simp [headNonSlug, hc, hd, joinDash_cons_head]

theorem stripEdges_cons_dash (m : List Char) :
    stripEdges ('-' :: m) = (if m.getLast? = some '-' then m.dropLast else m) := by
  simp [stripEdges]

theorem stripEdges_cons_nondash (x : Char) (hx : x ≠ '-') (m : List Char) :
    stripEdges (x :: m) =
      (if (x :: m).getLast? = some '-' then (x :: m).dropLast else (x :: m)) := by
  simp [stripEdges, hx]

theorem stripEdges_wrap (p q : Prop) [Decidable p] [Decidable q]
    (x : Char) (J' : List Char) (hx : x ≠ '-')
    (y : Char) (hy : (x :: J').getLast? = some y) (hyne : y ≠ '-') :
    stripEdges ((if p then ['-'] else []) ++ (x :: J') ++ (if q then ['-'] else [])) =
      x :: J' := by
  have hlastne : (x :: J').getLast? ≠ some '-' := by
    rw [hy]
    simp [hyne]
  have hcat : x :: (J' ++ ['-']) = (x :: J') ++ ['-'] := by simp
  by_cases hp : p <;> by_cases hq : q <;> simp only [hp, hq, ite_true, ite_false,
      List.nil_append, List.append_nil, List.cons_append, List.append_assoc]
  · rw [stripEdges_cons_dash, hcat, List.getLast?_concat, if_pos rfl, List.dropLast_concat]
  · rw [stripEdges_cons_dash, if_neg hlastne]
  · rw [stripEdges_cons_nondash x hx, hcat, List.getLast?_concat, if_pos rfl,
      List.dropLast_concat]
  · rw [stripEdges_cons_nondash x hx, if_neg hlastne]

theorem stripEdges_collapseRuns (l : List Char) :
    stripEdges (collapseRuns l) = joinDash (slugTokens l) := by
  rw [collapseRuns_eq]
  cases hT : slugTokens l with
  | nil =>
    cases hH : headNonSlug l
    · cases l with
      | nil => simp [stripEdges, joinDash]
      | cons c cs =>
        have hc : isSlugChar c = true := by
          cases h : isSlugChar c
          · simp [headNonSlug, h] at hH
          · rfl
        obtain ⟨t, ts, h2⟩ := slugTokens_head_slug cs hc
        rw [h2] at hT
        simp at hT
    · simp [hT, joinDash, stripEdges]
  | cons t₁ ts₁ =>
    have hwf := slugTokens_wf l
    rw [hT] at hwf
    obtain ⟨hne₁, hall₁⟩ := hwf t₁ (by simp)
    obtain ⟨x, t₁', rfl⟩ : ∃ x t', t₁ = x :: t' := by
      cases t₁ with
      | nil => exact absurd rfl hne₁
      | cons a b => exact ⟨a, b, rfl⟩
    have hx : isSlugChar x = true := hall₁ x (by simp)
    have hxne : x ≠ '-' := by
      intro h
      rw [h] at hx
      exact absurd hx (by decide)
    obtain ⟨y, hy, hyslug⟩ := joinDash_getLast_slug ((x :: t₁') :: ts₁) hwf (by simp)
    have hyne : y ≠ '-' := by
      intro h
      rw [h] at hyslug
      exact absurd hyslug (by decide)
    rw [joinDash_cons_head] at hy ⊢
    exact stripEdges_wrap _ _ x (joinDash (t₁' :: ts₁)) hxne y hy hyne

theorem createSlug_eq_slugSpec (name : String) : createSlug name = slugSpec name := by
  unfold createSlug slugSpec
  rw [stripEdges_collapseRuns]

/-- C3: for every input string, `createSlug` is pure and deterministic
(equal names yield equal slugs), and returns the lowercased name with every
maximal run of non-alphanumeric characters collapsed to a single `'-'`
separator and with no leading or trailing separator (stated as equality
with the spec-side `slugSpec`, which joins the maximal alphanumeric tokens
of the lowercased name with single dashes); in particular
`createSlug "Acme Corp!" = "acme-corp"`. -/
theorem claim_C3_createSlug :
    (∀ a b : String, a = b → createSlug a = createSlug b) ∧
    (∀ name : String, createSlug name = slugSpec name) ∧
    createSlug "Acme Corp!" = "acme-corp" :=
  ⟨fun _ _ h => by rw [h], createSlug_eq_slugSpec, by decide⟩

/-- Witness for `claim_C3_createSlug`, discharging its hypotheses at
concrete inputs. -/
theorem claim_C3_createSlug_witness :
    createSlug "Acme Corp!" = createSlug "Acme Corp!" ∧
    createSlug "Hello  World" = slugSpec "Hello  World" :=
  ⟨claim_C3_createSlug.1 "Acme Corp!" "Acme Corp!" rfl,
   claim_C3_createSlug.2.1 "Hello  World"⟩

/-- A page visit that found new records: the fetch succeeded with a
non-empty extraction of which the slug filter kept a non-empty part, which
became the appended chunk. -/
def successVisit (fetch : Nat → Except String (List AntlerCompany))
    (before : List AntlerCompany) (page : Nat) (chunk : List AntlerCompany) : Prop :=
  ∃ l, fetch page = Except.ok l ∧ l ≠ [] ∧
    chunk = filterNewCompanies before l ∧ chunk ≠ []

/-- A page visit that halted the loop: a thrown error, an empty extraction,
or an extraction in which every slug was already accumulated; nothing is
appended. -/
def haltVisit (fetch : Nat → Except String (List AntlerCompany))
    (before : List AntlerCompany) (page : Nat) (chunk : List AntlerCompany) : Prop :=
  chunk = [] ∧
    ((∃ e, fetch page = Except.error e) ∨
      ∃ l, fetch page = Except.ok l ∧ (l = [] ∨ filterNewCompanies before l = []))

/-- The full characterization of one `extractLoop` run from page `cp` with
fuel `fuel` and accumulated state `companies`/`processed`: the visited pages
are consecutive from `cp`, chunks align with visits, the final state is the
initial one extended by the chunks, and every visit is a success visit
except a final halting one (when `hasMorePages` came out false). -/
def LoopSpec (fetch : Nat → Except String (List AntlerCompany))
    (fuel cp : Nat) (companies : List AntlerCompany) (processed : Nat)
    (r : LoopResult) : Prop :=
  r.visited = List.range' cp r.visited.length ∧
  r.chunks.length = r.visited.length ∧
  r.visited.length ≤ fuel ∧
  r.companies = companies ++ r.chunks.flatten ∧
  r.processedCompanies = processed + (r.chunks.map List.length).sum ∧
  (r.hasMorePages = true → r.visited.length = fuel ∧ r.currentPage = cp + fuel) ∧
  (r.hasMorePages = false →
    1 ≤ r.visited.length ∧ r.currentPage + 1 = cp + r.visited.length) ∧
  (∀ i, i < r.chunks.length →
    ((i + 1 < r.chunks.length ∨ r.hasMorePages = true) →
      successVisit fetch (companies ++ (r.chunks.take i).flatten) (cp + i)
        (r.chunks.getD i [])) ∧
    ((i + 1 = r.chunks.length ∧ r.hasMorePages = false) →
      haltVisit fetch (companies ++ (r.chunks.take i).flatten) (cp + i)
        (r.chunks.getD i [])))

theorem extractLoop_error (fetch : Nat → Except String (List AntlerCompany))
    (fuel cp : Nat) (companies : List AntlerCompany) (processed : Nat) (e : String)
    (hf : fetch cp = Except.error e) :
    extractLoop fetch (fuel + 1) cp companies processed =
      { currentPage := cp, hasMorePages := false, companies := companies,
        processedCompanies := processed, visited := [cp], chunks := [[]] } := by
  unfold extractLoop
  rw [hf]

theorem extractLoop_halt_ok (fetch : Nat → Except String (List AntlerCompany))
    (fuel cp : Nat) (companies : List AntlerCompany) (processed : Nat)
    (l : List AntlerCompany) (hf : fetch cp = Except.ok l)
    (hcond : l = [] ∨ (l ≠ [] ∧ filterNewCompanies companies l = [])) :
    extractLoop fetch (fuel + 1) cp companies processed =
      { currentPage := cp, hasMorePages := false, companies := companies,
        processedCompanies := processed, visited := [cp], chunks := [[]] } := by
  unfold extractLoop
  rw [hf]
  rcases hcond with rfl | ⟨hne, hnew⟩
  · simp
  · simp [List.isEmpty_iff, hne, hnew]

theorem extractLoop_success (fetch : Nat → Except String (List AntlerCompany))
    (fuel cp : Nat) (companies : List AntlerCompany) (processed : Nat)
    (l : List AntlerCompany) (hf : fetch cp = Except.ok l) (hne : l ≠ [])
    (hnew : filterNewCompanies companies l ≠ []) :
    extractLoop fetch (fuel + 1) cp companies processed =
      { extractLoop fetch fuel (cp + 1) (companies ++ filterNewCompanies companies l)
          (processed + (filterNewCompanies companies l).length) with
        visited := cp :: (extractLoop fetch fuel (cp + 1)
          (companies ++ filterNewCompanies companies l)
          (processed + (filterNewCompanies companies l).length)).visited,
        chunks := filterNewCompanies companies l :: (extractLoop fetch fuel (cp + 1)
          (companies ++ filterNewCompanies companies l)
          (processed + (filterNewCompanies companies l).length)).chunks } := by
  conv_lhs => rw [extractLoop]
  rw [hf]
  simp [List.isEmpty_iff, hne, hnew]

theorem haltSpec (fetch : Nat → Except String (List AntlerCompany))
    (fuel cp : Nat) (companies : List AntlerCompany) (processed : Nat)
    (hcond : (∃ e, fetch cp = Except.error e) ∨
      ∃ l, fetch cp = Except.ok l ∧ (l = [] ∨ filterNewCompanies companies l = [])) :
    LoopSpec fetch (fuel + 1) cp companies processed
      { currentPage := cp, hasMorePages := false, companies := companies,
        processedCompanies := processed, visited := [cp], chunks := [[]] } := by
  unfold LoopSpec
  refine ⟨by simp [List.range'], rfl, by simp, by simp, by simp, by simp, by simp, ?_⟩
  intro i hi
  have hi0 : i = 0 := by simpa using hi
  subst hi0
  constructor
  · intro h
    rcases h with h | h
    · simp at h
    · simp at h
  · intro _
    exact ⟨rfl, by simpa using hcond⟩

theorem extractLoop_inv (fetch : Nat → Except String (List AntlerCompany)) :
    ∀ (fuel cp : Nat) (companies : List AntlerCompany) (processed : Nat),
      LoopSpec fetch fuel cp companies processed
        (extractLoop fetch fuel cp companies processed) := by
  intro fuel
  induction fuel with
  | zero =>
    intro cp companies processed
    unfold LoopSpec extractLoop
    refine ⟨by simp [List.range'], rfl, by simp, by simp, by simp, by simp, by simp, ?_⟩
    intro i hi
    simp at hi
  | succ fuel ih =>
    intro cp companies processed
    rcases hf : fetch cp with e | l
    · rw [extractLoop_error fetch fuel cp companies processed e hf]
      exact haltSpec fetch fuel cp companies processed (Or.inl ⟨e, hf⟩)
    · by_cases hne : l = []
      · subst hne
        rw [extractLoop_halt_ok fetch fuel cp companies processed [] hf (Or.inl rfl)]
        exact haltSpec fetch fuel cp companies processed (Or.inr ⟨[], hf, Or.inl rfl⟩)
      · by_cases hnew : filterNewCompanies companies l = []
        · rw [extractLoop_halt_ok fetch fuel cp companies processed l hf
            (Or.inr ⟨hne, hnew⟩)]
          exact haltSpec fetch fuel cp companies processed
            (Or.inr ⟨l, hf, Or.inr hnew⟩)
        · rw [extractLoop_success fetch fuel cp companies processed l hf hne hnew]
          obtain ⟨h1, h2, h3, h4, h5, h6, h7, h8⟩ :=
            ih (cp + 1) (companies ++ filterNewCompanies companies l)
              (processed + (filterNewCompanies companies l).length)
          refine ⟨?_, ?_, ?_, ?_, ?_, ?_, ?_, ?_⟩
          · simp only [List.length_cons, List.range'_succ]
            rw [← h1]
          · simp [h2]
          · simp only [List.length_cons]
            omega
          · simp only [List.flatten_cons, ← List.append_assoc]
            exact h4
          · simp only [List.map_cons, List.sum_cons]
            omega
          · intro hmore
            obtain ⟨ha, hb⟩ := h6 hmore
            constructor
            · simp [ha]
            · simp only [List.length_cons]
              omega
          · intro hmore
            obtain ⟨ha, hb⟩ := h7 hmore
            constructor
            · simp only [List.length_cons]
              omega
            · simp only [List.length_cons]
              omega
          · intro i hi
            cases i with
            | zero =>
              constructor
              · intro _
                refine ⟨l, hf, hne, ?_, ?_⟩
                · simp
                · simp [List.getD_cons_zero, hnew]
              · intro hhalt
                obtain ⟨hlen, hmore⟩ := hhalt
                obtain ⟨hge, _⟩ := h7 hmore
                simp only [List.length_cons] at hlen
                omega
            | succ j =>
              simp only [List.length_cons] at hi
              have hj : j < (extractLoop fetch fuel (cp + 1)
                  (companies ++ filterNewCompanies companies l)
                  (processed + (filterNewCompanies companies l).length)).chunks.length := by
                omega
              obtain ⟨hsucc, hhalt⟩ := h8 j hj
              constructor
              · intro hcnd
                have hres := hsucc (by
                  rcases hcnd with hlt | hm
                  · left
                    simp only [List.length_cons] at hlt
                    omega
                  · right
                    exact hm)
                have harr : cp + (j + 1) = cp + 1 + j := by omega
                rw [List.getD_cons_succ, List.take_succ_cons, List.flatten_cons,
                  ← List.append_assoc, harr]
                exact hres
              · intro hcnd
                obtain ⟨hlen, hmore⟩ := hcnd
                simp only [List.length_cons] at hlen
                have hres := hhalt ⟨by omega, hmore⟩
                have harr : cp + (j + 1) = cp + 1 + j := by omega
                rw [List.getD_cons_succ, List.take_succ_cons, List.flatten_cons,
                  ← List.append_assoc, harr]
                exact hres

theorem mem_filterNewCompanies (companies pageCompanies : List AntlerCompany)
    (c : AntlerCompany) :
    c ∈ filterNewCompanies companies pageCompanies ↔
      c ∈ pageCompanies ∧ c.slug ∉ companies.map (fun x => x.slug) := by
  simp [filterNewCompanies, List.mem_filter]

theorem flatten_of_last_nil (l : List (List AntlerCompany)) (i : Nat)
    (hi : i < l.length) (hlen : l.length = i + 1) (h : l.getD i [] = []) :
    l.flatten = (l.take i).flatten := by
  have h2 : List.drop i l = [l.getD i []] := by
    rw [List.drop_eq_getElem_cons hi]
    have h3 : l.drop (i + 1) = [] := List.drop_eq_nil_of_le (by omega)
    rw [h3, List.getD_eq_getElem _ _ hi]
  conv_lhs => rw [← List.take_append_drop i l]
  rw [List.flatten_append, h2, h]
  simp

/-- Membership in the visited list of a run started at page 1. -/
theorem mem_visited_iff (fetch : Nat → Except String (List AntlerCompany))
    (maxPages k : Nat) :
    k ∈ (extractCompanyData fetch maxPages).visited ↔
      1 ≤ k ∧ k < 1 + (extractCompanyData fetch maxPages).visited.length := by
  have h1 := (extractLoop_inv fetch maxPages 1 [] 0).1
  constructor
  · intro hk
    rw [extractCompanyData] at hk ⊢
    rw [h1] at hk
    exact List.mem_range'_1.mp hk
  · intro hk
    rw [extractCompanyData] at hk ⊢
    rw [h1]
    exact List.mem_range'_1.mpr hk

/-- The halting rule, derived from the loop invariant: a fetched page whose
extraction is empty or yields no new slugs is the final page. -/
theorem halt_at_page (fetch : Nat → Except String (List AntlerCompany))
    (maxPages k : Nat) (l : List AntlerCompany)
    (hmem : k ∈ (extractCompanyData fetch maxPages).visited)
    (hf : fetch k = Except.ok l)
    (hstop : l = [] ∨ filterNewCompanies
      (((extractCompanyData fetch maxPages).chunks.take (k - 1)).flatten) l = []) :
    (extractCompanyData fetch maxPages).currentPage = k ∧
    (k + 1) ∉ (extractCompanyData fetch maxPages).visited ∧
    (extractCompanyData fetch maxPages).hasMorePages = false ∧
    (extractCompanyData fetch maxPages).chunks.getD (k - 1) [] = [] := by
  obtain ⟨h1, h2, h3, h4, h5, h6, h7, h8⟩ := extractLoop_inv fetch maxPages 1 [] 0
  rw [extractCompanyData] at hmem hstop ⊢
  set r := extractLoop fetch maxPages 1 [] 0 with hr
  have hk12 : 1 ≤ k ∧ k < 1 + r.visited.length :=
    List.mem_range'_1.mp (by rw [← h1]; exact hmem)
  have hi : k - 1 < r.chunks.length := by omega
  have hpage : 1 + (k - 1) = k := by omega
  have hnosucc : ¬ (k - 1 + 1 < r.chunks.length ∨ r.hasMorePages = true) := by
    intro hcnd
    obtain ⟨l', hl', hlne, hchunk, hcne⟩ := (h8 (k - 1) hi).1 hcnd
    rw [hpage, hf] at hl'
    cases hl'
    rcases hstop with rfl | hnew
    · exact hlne rfl
    · rw [hchunk] at hcne
      simp only [List.nil_append] at hcne
      exact hcne hnew
  have hlenk : k - 1 + 1 = r.chunks.length ∧ r.hasMorePages = false := by
    constructor
    · omega
    · cases hmv : r.hasMorePages
      · rfl
      · exact absurd (Or.inr hmv) hnosucc
  obtain ⟨hhalt1, hhalt2⟩ := (h8 (k - 1) hi).2 hlenk
  refine ⟨?_, ?_, hlenk.2, hhalt1⟩
  · obtain ⟨_, hcur⟩ := h7 hlenk.2
    omega
  · intro hmem2
    have hk3 := List.mem_range'_1.mp (by rw [← h1]; exact hmem2)
    omega

/-- The continuation rule: if page `k + 1` was fetched then page `k`
succeeded with new records. -/
theorem continue_at_page (fetch : Nat → Except String (List AntlerCompany))
    (maxPages k : Nat) (l : List AntlerCompany) (hk1 : 1 ≤ k)
    (hmem : (k + 1) ∈ (extractCompanyData fetch maxPages).visited)
    (hf : fetch k = Except.ok l) :
    l ≠ [] ∧ filterNewCompanies
      (((extractCompanyData fetch maxPages).chunks.take (k - 1)).flatten) l ≠ [] := by
  obtain ⟨h1, h2, h3, h4, h5, h6, h7, h8⟩ := extractLoop_inv fetch maxPages 1 [] 0
  rw [extractCompanyData] at hmem ⊢
  set r := extractLoop fetch maxPages 1 [] 0 with hr
  have hk2 : 1 ≤ k + 1 ∧ k + 1 < 1 + r.visited.length :=
    List.mem_range'_1.mp (by rw [← h1]; exact hmem)
  have hi : k - 1 < r.chunks.length := by omega
  have hpage : 1 + (k - 1) = k := by omega
  have hcnd : k - 1 + 1 < r.chunks.length ∨ r.hasMorePages = true := by
    left
    omega
  obtain ⟨l', hl', hlne, hchunk, hcne⟩ := (h8 (k - 1) hi).1 hcnd
  rw [hpage, hf] at hl'
  cases hl'
  constructor
  · exact hlne
  · intro hnew
    rw [hchunk] at hcne
    simp only [List.nil_append] at hcne
    exact hcne hnew

/-- Slug-distinctness is preserved by the loop when every fetched page is
internally slug-distinct. -/
theorem extractLoop_nodup (fetch : Nat → Except String (List AntlerCompany))
    (hfetch : ∀ p l, fetch p = Except.ok l → (l.map (fun c => c.slug)).Nodup) :
    ∀ (fuel cp : Nat) (companies : List AntlerCompany) (processed : Nat),
      (companies.map (fun c => c.slug)).Nodup →
      (((extractLoop fetch fuel cp companies processed).companies.map
        (fun c => c.slug)).Nodup) := by
  intro fuel
  induction fuel with
  | zero =>
    intro cp companies processed h
    simpa [extractLoop] using h
  | succ fuel ih =>
    intro cp companies processed h
    rcases hf : fetch cp with e | l
    · rw [extractLoop_error fetch fuel cp companies processed e hf]
      exact h
    · by_cases hne : l = []
      · subst hne
        rw [extractLoop_halt_ok fetch fuel cp companies processed [] hf (Or.inl rfl)]
        exact h
      · by_cases hnew : filterNewCompanies companies l = []
        · rw [extractLoop_halt_ok fetch fuel cp companies processed l hf
            (Or.inr ⟨hne, hnew⟩)]
          exact h
        · rw [extractLoop_success fetch fuel cp companies processed l hf hne hnew]
          apply ih
          rw [List.map_append, List.nodup_append]
          refine ⟨h, ?_, ?_⟩
          · exact List.Nodup.sublist
              (List.Sublist.map _ (List.filter_sublist l)) (hfetch cp l hf)
          · intro s hs hs2
            obtain ⟨c1, hc1, hc1s⟩ := List.mem_map.mp hs
            obtain ⟨c2, hc2, hc2s⟩ := List.mem_map.mp hs2
            obtain ⟨_, hnotin⟩ := (mem_filterNewCompanies companies l c2).mp hc2
            exact hnotin (List.mem_map.mpr ⟨c1, hc1, by rw [hc1s, hc2s]⟩)

/-- A minimal concrete record for loop-level examples. -/
def sampleCo (nm sl : String) : AntlerCompany :=
  { id := "antler-" ++ sl, name := nm, slug := sl,
    website := "https://example-site.com/" ++ sl, description := nm,
    founded_year := 0, location := "Unknown", sector := "Unknown",
    logo_url := "", url := "", api := "" }

/-- Example 5's page sequence: pages 1-3 yield one new record each, page 4
yields none. -/
def fetchPagesEx : Nat → Except String (List AntlerCompany) := fun p =>
  if p = 1 then Except.ok [sampleCo "One" "one"]
  else if p = 2 then Except.ok [sampleCo "Two" "two"]
  else if p = 3 then Except.ok [sampleCo "Three" "three"]
  else Except.ok []

/-- C2: for every page sequence, the visited pages are consecutive from 1
(no page is retried), all lie within the inclusive `maxPages` ceiling, a
fetched page whose extraction is empty or whose every slug is already
accumulated is the final page (`currentPage` stays there, the next page is
never fetched and the loop flag is cleared), and conversely a page followed
by a fetched successor yielded a non-empty extraction with new slugs; in
particular when page 4 yields zero records the run stops with `currentPage`
4, having visited exactly pages 1-4 and never page 5. -/
theorem claim_C2_pagination :
    (∀ (fetch : Nat → Except String (List AntlerCompany)) (maxPages : Nat),
      ((extractCompanyData fetch maxPages).visited =
        List.range' 1 (extractCompanyData fetch maxPages).visited.length) ∧
      (∀ k ∈ (extractCompanyData fetch maxPages).visited, 1 ≤ k ∧ k ≤ maxPages) ∧
      (∀ k l, k ∈ (extractCompanyData fetch maxPages).visited →
        fetch k = Except.ok l →
        (l = [] ∨ filterNewCompanies
          (((extractCompanyData fetch maxPages).chunks.take (k - 1)).flatten) l = []) →
        (extractCompanyData fetch maxPages).currentPage = k ∧
          (k + 1) ∉ (extractCompanyData fetch maxPages).visited ∧
          (extractCompanyData fetch maxPages).hasMorePages = false) ∧
      (∀ k l, 1 ≤ k → (k + 1) ∈ (extractCompanyData fetch maxPages).visited →
        fetch k = Except.ok l →
        l ≠ [] ∧ filterNewCompanies
          (((extractCompanyData fetch maxPages).chunks.take (k - 1)).flatten) l ≠ [])) ∧
    ((extractCompanyData fetchPagesEx 20).currentPage = 4 ∧
      (extractCompanyData fetchPagesEx 20).visited = [1, 2, 3, 4] ∧
      5 ∉ (extractCompanyData fetchPagesEx 20).visited) := by
  constructor
  · intro fetch maxPages
    refine ⟨(extractLoop_inv fetch maxPages 1 [] 0).1, ?_, ?_, ?_⟩
    · intro k hk
      have h12 := (mem_visited_iff fetch maxPages k).mp hk
      have hlen : (extractCompanyData fetch maxPages).visited.length ≤ maxPages :=
        (extractLoop_inv fetch maxPages 1 [] 0).2.2.1
      omega
    · intro k l hmem hf hstop
      obtain ⟨ha, hb, hc, _⟩ := halt_at_page fetch maxPages k l hmem hf hstop
      exact ⟨ha, hb, hc⟩
    · exact fun k l hk1 hmem hf => continue_at_page fetch maxPages k l hk1 hmem hf
  · exact ⟨by decide, by decide, by decide⟩

/-- Witness for `claim_C2_pagination`: the halting rule applied to the
concrete Example 5 run at page 4. -/
theorem claim_C2_pagination_witness :
    (extractCompanyData fetchPagesEx 20).currentPage = 4 ∧
    (4 + 1) ∉ (extractCompanyData fetchPagesEx 20).visited ∧
    (extractCompanyData fetchPagesEx 20).hasMorePages = false :=
  (claim_C2_pagination.1 fetchPagesEx 20).2.2.1 4 [] (by decide) rfl (Or.inl rfl)

/-- Example 4's page sequence: page 1 accumulates slugs `a`, `b`; page 2
extracts 5 candidates of which 2 carry already-accumulated slugs. -/
def fetchMergeEx : Nat → Except String (List AntlerCompany) := fun p =>
  if p = 1 then Except.ok [sampleCo "A" "a", sampleCo "B" "b"]
  else if p = 2 then
    Except.ok [sampleCo "A again" "a", sampleCo "B again" "b",
      sampleCo "X" "x", sampleCo "Y" "y", sampleCo "Z" "z"]
  else Except.ok []

/-- C1 (amended): when a page's extracted records are merged, exactly the
records whose slug already occurs in the previously-accumulated set are
dropped (not merged or overwritten), the rest are appended in page order,
and `processedCompanies` grows by exactly the number appended; the
accumulated set therefore never holds two records with equal slug
PROVIDED every single page's extraction is internally slug-distinct — but
two candidates on one page with different hrefs and names mapping to the
same slug are both appended (the within-page dedup is by exact href, not by
slug), so the unconditional claim fails (see the counterexample).  The
Example 4 numbers hold: 5 extracted, 2 already-accumulated slugs, 3
appended, `processedCompanies` up by 3. -/
theorem claim_C1_dedup_amended :
    (∀ (companies pageCompanies : List AntlerCompany) (c : AntlerCompany),
      c ∈ filterNewCompanies companies pageCompanies ↔
        c ∈ pageCompanies ∧ c.slug ∉ companies.map (fun x => x.slug)) ∧
    (∀ companies pageCompanies : List AntlerCompany,
      (filterNewCompanies companies pageCompanies).Sublist pageCompanies) ∧
    (∀ (fetch : Nat → Except String (List AntlerCompany)) (maxPages : Nat),
      (extractCompanyData fetch maxPages).companies =
        (extractCompanyData fetch maxPages).chunks.flatten ∧
      (extractCompanyData fetch maxPages).processedCompanies =
        ((extractCompanyData fetch maxPages).chunks.map List.length).sum ∧
      (∀ i l, i < (extractCompanyData fetch maxPages).chunks.length →
        (extractCompanyData fetch maxPages).chunks.getD i [] ≠ [] →
        fetch (1 + i) = Except.ok l →
        (extractCompanyData fetch maxPages).chunks.getD i [] =
          filterNewCompanies
            (((extractCompanyData fetch maxPages).chunks.take i).flatten) l)) ∧
    (∀ (fetch : Nat → Except String (List AntlerCompany)) (maxPages : Nat),
      (∀ p l, fetch p = Except.ok l → (l.map (fun c => c.slug)).Nodup) →
      (((extractCompanyData fetch maxPages).companies.map (fun c => c.slug)).Nodup)) ∧
    (((extractCompanyData fetchMergeEx 20).chunks.getD 1 []).length = 3 ∧
      (extractCompanyData fetchMergeEx 20).processedCompanies = 5 ∧
      (extractCompanyData fetchMergeEx 20).companies.map (fun c => c.slug) =
        ["a", "b", "x", "y", "z"]) := by
  refine ⟨mem_filterNewCompanies, ?_, ?_, ?_, by decide, by decide, by decide⟩
  · intro companies pageCompanies
    exact List.filter_sublist pageCompanies
  · intro fetch maxPages
    obtain ⟨h1, h2, h3, h4, h5, h6, h7, h8⟩ := extractLoop_inv fetch maxPages 1 [] 0
    refine ⟨by rw [extractCompanyData]; simpa using h4,
      by rw [extractCompanyData]; simpa using h5, ?_⟩
    intro i l hi hcne hf
    rw [extractCompanyData] at hi hcne ⊢
    set r := extractLoop fetch maxPages 1 [] 0 with hr
    by_cases hcnd : i + 1 < r.chunks.length ∨ r.hasMorePages = true
    · obtain ⟨l', hl', hlne, hchunk, hcne2⟩ := (h8 i hi).1 hcnd
      rw [hf] at hl'
      cases hl'
      rw [hchunk]
      simp only [List.nil_append]
    · have hlt : ¬ (i + 1 < r.chunks.length) := fun h => hcnd (Or.inl h)
      have hlenk : i + 1 = r.chunks.length ∧ r.hasMorePages = false := by
        constructor
        · omega
        · cases hmv : r.hasMorePages
          · rfl
          · exact absurd (Or.inr hmv) hcnd
      obtain ⟨hchunknil, _⟩ := (h8 i hi).2 hlenk
      exact absurd hchunknil hcne
  · intro fetch maxPages hfetch
    exact extractLoop_nodup fetch hfetch maxPages 1 [] 0 (by simp)

/-- Witness for `claim_C1_dedup_amended`: the per-merge characterization
applied to page 2 of the Example 4 run. -/
theorem claim_C1_dedup_amended_witness :
    (extractCompanyData fetchMergeEx 20).chunks.getD 1 [] =
      filterNewCompanies
        (((extractCompanyData fetchMergeEx 20).chunks.take 1).flatten)
        [sampleCo "A again" "a", sampleCo "B again" "b",
          sampleCo "X" "x", sampleCo "Y" "y", sampleCo "Z" "z"] :=
  (claim_C1_dedup_amended.2.2.1 fetchMergeEx 20).2.2 1
    [sampleCo "A again" "a", sampleCo "B again" "b",
      sampleCo "X" "x", sampleCo "Y" "y", sampleCo "Z" "z"]
    (by decide) (by decide) rfl

/-- A candidate anchor whose card names the company `Acme`. -/
def dupAnchor1 : CandidateElem :=
  { href := some "https://acme-one.example",
    selfView := { emptyCard with headHeading := some "Acme" },
    closest := fun _ => none }

/-- A second candidate anchor with a different href whose card's name
`Acme!!` maps to the same slug `acme`. -/
def dupAnchor2 : CandidateElem :=
  { href := some "https://acme-two.example",
    selfView := { emptyCard with headHeading := some "Acme!!" },
    closest := fun _ => none }

/-- A page carrying both anchors. -/
def dupPage : PageDoc :=
  { anchors := [dupAnchor1, dupAnchor2], portfolioContainer := none }

/-- The run whose first page is the extraction of `dupPage`. -/
def fetchDupSlug : Nat → Except String (List AntlerCompany) := fun p =>
  if p = 1 then Except.ok (extractCompaniesFromCurrentPage 2026 dupPage)
  else Except.ok []

/-- Counterexample to C1 as stated: two candidates on the same page with
different hrefs and names mapping to the same slug are both appended, so
the accumulated set holds two records with slug `acme` and
`processedCompanies` grows by 2, not 1. -/
theorem claim_C1_dedup_counterexample :
    (extractCompanyData fetchDupSlug 20).companies.map (fun c => c.slug) =
      ["acme", "acme"] ∧
    ¬ (((extractCompanyData fetchDupSlug 20).companies.map (fun c => c.slug)).Nodup) ∧
    (extractCompanyData fetchDupSlug 20).processedCompanies = 2 :=
  ⟨by decide, by decide, by decide⟩

/-- A run whose page 2 fetch throws. -/
def fetchBoom : Nat → Except String (List AntlerCompany) := fun p =>
  if p = 1 then Except.ok [sampleCo "One" "one"]
  else if p = 2 then Except.error "boom"
  else Except.ok []

/-- C7 (amended): an uncaught in-loop error at page `k` stops pagination
immediately — `currentPage` stays at `k`, page `k + 1` is never fetched,
the erroring page contributes nothing and the accumulated records are
exactly those of the earlier pages, which the output generation persists —
but the error is only logged to the console: `progress.errors` stays
unchanged (it receives an entry only when the initial navigation to the
base URL fails, in which case output generation is skipped and nothing is
persisted). -/
theorem claim_C7_error_amended :
    (∀ (fetch : Nat → Except String (List AntlerCompany)) (maxPages k : Nat)
        (e : String),
      k ∈ (extractCompanyData fetch maxPages).visited →
      fetch k = Except.error e →
      (extractCompanyData fetch maxPages).currentPage = k ∧
      (k + 1) ∉ (extractCompanyData fetch maxPages).visited ∧
      (extractCompanyData fetch maxPages).hasMorePages = false ∧
      (extractCompanyData fetch maxPages).chunks.getD (k - 1) [] = [] ∧
      (extractCompanyData fetch maxPages).companies =
        (((extractCompanyData fetch maxPages).chunks.take (k - 1)).flatten) ∧
      (scrapePortfolio (Except.ok ()) fetch maxPages).persisted =
        some (extractCompanyData fetch maxPages).companies ∧
      (scrapePortfolio (Except.ok ()) fetch maxPages).progress.errors = []) ∧
    (∀ (e : String) (fetch : Nat → Except String (List AntlerCompany))
        (maxPages : Nat),
      (scrapePortfolio (Except.error e) fetch maxPages).progress.errors =
        ["Scraping error: " ++ e] ∧
      (scrapePortfolio (Except.error e) fetch maxPages).persisted = none) := by
  constructor
  · intro fetch maxPages k e hmem hf
    refine ⟨?_, ?_, ?_, ?_, ?_, rfl, rfl⟩ <;>
      · obtain ⟨h1, h2, h3, h4, h5, h6, h7, h8⟩ := extractLoop_inv fetch maxPages 1 [] 0
        rw [extractCompanyData] at hmem ⊢
        set r := extractLoop fetch maxPages 1 [] 0 with hr
        have hk12 : 1 ≤ k ∧ k < 1 + r.visited.length :=
          List.mem_range'_1.mp (by rw [← h1]; exact hmem)
        have hi : k - 1 < r.chunks.length := by omega
        have hpage : 1 + (k - 1) = k := by omega
        have hnosucc : ¬ (k - 1 + 1 < r.chunks.length ∨ r.hasMorePages = true) := by
          intro hcnd
          obtain ⟨l', hl', _, _, _⟩ := (h8 (k - 1) hi).1 hcnd
          rw [hpage, hf] at hl'
          cases hl'
        have hlenk : k - 1 + 1 = r.chunks.length ∧ r.hasMorePages = false := by
          constructor
          · have hlt : ¬ (k - 1 + 1 < r.chunks.length) := fun h => hnosucc (Or.inl h)
            omega
          · cases hmv : r.hasMorePages
            · rfl
            · exact absurd (Or.inr hmv) hnosucc
        obtain ⟨hchunknil, _⟩ := (h8 (k - 1) hi).2 hlenk
        first
        | (obtain ⟨_, hcur⟩ := h7 hlenk.2
           omega)
        | (intro hmem2
           have hk3 := List.mem_range'_1.mp (by rw [← h1]; exact hmem2)
           omega)
        | exact hlenk.2
        | exact hchunknil
        | (rw [h4, List.nil_append]
           exact flatten_of_last_nil r.chunks (k - 1) hi (by omega) hchunknil)
  · intro e fetch maxPages
    exact ⟨rfl, rfl⟩

/-- Witness for `claim_C7_error_amended` at the concrete erroring run. -/
theorem claim_C7_error_amended_witness :
    (extractCompanyData fetchBoom 20).currentPage = 2 ∧
    (2 + 1) ∉ (extractCompanyData fetchBoom 20).visited ∧
    (extractCompanyData fetchBoom 20).hasMorePages = false ∧
    (extractCompanyData fetchBoom 20).chunks.getD (2 - 1) [] = [] ∧
    (extractCompanyData fetchBoom 20).companies =
      (((extractCompanyData fetchBoom 20).chunks.take (2 - 1)).flatten) ∧
    (scrapePortfolio (Except.ok ()) fetchBoom 20).persisted =
      some (extractCompanyData fetchBoom 20).companies ∧
    (scrapePortfolio (Except.ok ()) fetchBoom 20).progress.errors = [] :=
  claim_C7_error_amended.1 fetchBoom 20 2 "boom" (by decide) rfl

/-- Counterexample to C7 as stated: pagination does stop at the erroring
page 2 and the accumulated records are persisted, but the error is NOT
appended to the progress error log — `progress.errors` is still empty. -/
theorem claim_C7_error_counterexample :
    fetchBoom 2 = Except.error "boom" ∧
    2 ∈ (scrapePortfolio (Except.ok ()) fetchBoom 20).visited ∧
    (scrapePortfolio (Except.ok ()) fetchBoom 20).progress.errors = [] ∧
    (scrapePortfolio (Except.ok ()) fetchBoom 20).persisted =
      some [sampleCo "One" "one"] :=
  ⟨rfl, by decide, by decide, by decide⟩

/-- Inversion for `extractCompanyFromElement`: a produced record passed both
guards and is exactly the built record literal. -/
theorem extractCompanyFromElement_some {currentYear : Nat} {website : String}
    {card : Card} {c : AntlerCompany}
    (h : extractCompanyFromElement currentYear website card = some c) :
    website ≠ "" ∧ ¬ website.length < 5 ∧
    extractName website card ≠ "" ∧ 2 ≤ (extractName website card).length ∧
    c = { id := "antler-" ++ createSlug (extractName website card),
          name := jsTrim (extractName website card),
          slug := createSlug (extractName website card),
          website := if strStartsWith website "http" then website
                     else "https://" ++ website,
          description := jsTrim (extractDescription (extractName website card) card),
          founded_year :=
            match structuralYear (extractAttribute card.cardHtml).data with
            | some year => if 1940 ≤ year ∧ year ≤ currentYear then year else 0
            | none => 0,
          location := orElseStr (normalizeLocation (extractLocSector card).1) "Unknown",
          sector := orElseStr (extractLocSector card).2 "Unknown",
          logo_url := orElseStr (extractLogo card) "",
          url := "https://www.antler.co/portfolio/" ++
            createSlug (extractName website card),
          api := "https://antler-api.github.io/companies/" ++
            createSlug (extractName website card) ++ ".json" } := by
  rw [extractCompanyFromElement] at h
  by_cases hw : website = "" ∨ website.length < 5
  · rw [if_pos hw] at h
    cases h
  · rw [if_neg hw] at h
    by_cases hn : extractName website card = "" ∨ (extractName website card).length < 2
    · rw [if_pos hn] at h
      cases h
    · rw [if_neg hn] at h
      injection h with h2
      push_neg at hw hn
      exact ⟨hw.1, by omega, hn.1, by omega, h2.symm⟩

theorem strStartsWith_append_http (pre s : String)
    (hp : strStartsWith pre "http" = true) : strStartsWith (pre ++ s) "http" = true := by
  unfold strStartsWith at hp ⊢
  have hdata : (pre ++ s).data = pre.data ++ s.data := rfl
  rw [hdata]
  rw [List.isPrefixOf_iff_prefix] at hp ⊢
  exact hp.trans (List.prefix_append _ _)

theorem record_website_http (website : String) :
    strStartsWith
      (if strStartsWith website "http" then website else "https://" ++ website)
      "http" = true := by
  by_cases hw : strStartsWith website "http" = true
  · rw [if_pos hw]
    exact hw
  · rw [if_neg hw]
    exact strStartsWith_append_http "https://" website (by decide)

theorem extractLogo_http (card : Card) :
    extractLogo card = "" ∨ strStartsWith (extractLogo card) "http" = true := by
  unfold extractLogo
  by_cases h0 : extractAttribute card.imgSrc = ""
  · rw [if_neg (by simp [h0])]
    exact Or.inl h0
  · by_cases h1 : strStartsWith (extractAttribute card.imgSrc) "http" = true
    · rw [if_neg (by simp [h1])]
      exact Or.inr h1
    · rw [if_pos ⟨h0, h1⟩]
      right
      by_cases h2 : strStartsWith (extractAttribute card.imgSrc) "//" = true
      · rw [if_pos h2]
        exact strStartsWith_append_http "https:" _ (by decide)
      · rw [if_neg h2]
        by_cases h3 : strStartsWith (extractAttribute card.imgSrc) "/" = true
        · rw [if_pos h3]
          exact strStartsWith_append_http "https://www.antler.co" _ (by decide)
        · rw [if_neg h3]
          exact strStartsWith_append_http "https://" _ (by decide)

/-- C4 (amended): every record built by `extractCompanyFromElement`
satisfies: the stored name is the trim of the extracted name, which is
itself non-empty of length at least 2 BEFORE trimming (the guard runs on
the untrimmed name, so a whitespace-padded image-alt name can produce a
stored name shorter than 2 — see the counterexample); `slug` is
`createSlug` of the extracted name and `id` is the namespaced
`"antler-" ++ slug`; the website begins with `"http"`; `logo_url` is empty
or begins with `"http"`; and a location or sector that resolves to nothing
is stored as the literal `"Unknown"` at record-build time. -/
theorem claim_C4_record_amended (currentYear : Nat) (website : String)
    (card : Card) (c : AntlerCompany)
    (h : extractCompanyFromElement currentYear website card = some c) :
    c.name = jsTrim (extractName website card) ∧
    extractName website card ≠ "" ∧
    2 ≤ (extractName website card).length ∧
    c.slug = createSlug (extractName website card) ∧
    c.id = "antler-" ++ c.slug ∧
    strStartsWith c.website "http" = true ∧
    (c.logo_url = "" ∨ strStartsWith c.logo_url "http" = true) ∧
    (normalizeLocation (extractLocSector card).1 = "" → c.location = "Unknown") ∧
    ((extractLocSector card).2 = "" → c.sector = "Unknown") := by
  obtain ⟨hw1, hw2, hn1, hn2, hc⟩ := extractCompanyFromElement_some h
  subst hc
  refine ⟨rfl, hn1, hn2, rfl, rfl, record_website_http website, ?_, ?_, ?_⟩
  · rcases extractLogo_http card with h0 | h0
    · left
      simp [orElseStr, h0]
    · by_cases he : extractLogo card = ""
      · left
        simp [orElseStr, he]
      · right
        simpa [orElseStr, he] using h0
  · intro hloc
    simp [orElseStr, hloc]
  · intro hsec
    simp [orElseStr, hsec]

/-- Witness for `claim_C4_record_amended` at a concrete card, discharging
its hypothesis by evaluation. -/
theorem claim_C4_record_amended_witness :
    ((extractCompanyFromElement 2026 "https://nimbusw.example"
        { emptyCard with headHeading := some "Nimbus" }).getD
      (sampleCo "x" "x")).id =
      "antler-" ++ ((extractCompanyFromElement 2026 "https://nimbusw.example"
        { emptyCard with headHeading := some "Nimbus" }).getD
      (sampleCo "x" "x")).slug :=
  (claim_C4_record_amended 2026 "https://nimbusw.example"
    { emptyCard with headHeading := some "Nimbus" }
    ((extractCompanyFromElement 2026 "https://nimbusw.example"
      { emptyCard with headHeading := some "Nimbus" }).getD (sampleCo "x" "x"))
    (by decide)).2.2.2.2.1

/-- Counterexample to C4 as stated: a card whose only name source is the
whitespace image-alt `"  "` passes the length-2 guard (it runs before
trimming), and the built record's name is the empty string — neither
non-empty nor of length at least 2. -/
theorem claim_C4_record_counterexample :
    (extractCompanyFromElement 2026 "https://wspace.example"
      { emptyCard with imgAlt := some "  " }).map (fun c => c.name) = some "" := by
  decide

theorem dropWhile_len_le (p : Char → Bool) : ∀ l : List Char,
    (l.dropWhile p).length ≤ l.length := by
  intro l
  induction l with
  | nil => simp
  | cons c cs ih =>
    rw [List.dropWhile_cons]
    split
    · simp only [List.length_cons]
      omega
    · simp

theorem trimChars_len_le (l : List Char) :
    (trimChars l).length ≤ (l.dropWhile isSpaceChar).length := by
  unfold trimChars
  rw [List.length_reverse]
  calc ((l.dropWhile isSpaceChar).reverse.dropWhile isSpaceChar).length
      ≤ (l.dropWhile isSpaceChar).reverse.length := dropWhile_len_le _ _
    _ = (l.dropWhile isSpaceChar).length := List.length_reverse _

theorem trimChars_head_not_space (l : List Char) (h : trimChars l = l) (c : Char)
    (hc : l.head? = some c) : isSpaceChar c = false := by
  cases l with
  | nil => cases hc
  | cons a t =>
    simp only [List.head?_cons, Option.some.injEq] at hc
    subst hc
    cases hp : isSpaceChar a
    · rfl
    · exfalso
      have hlen := trimChars_len_le (a :: t)
      rw [List.dropWhile_cons, if_pos hp] at hlen
      have h2 : (trimChars (a :: t)).length ≤ t.length :=
        le_trans hlen (dropWhile_len_le _ t)
      rw [h] at h2
      simp only [List.length_cons] at h2
      omega

theorem dropWhile_of_head_false (p : Char → Bool) (l : List Char) (c : Char)
    (hc : l.head? = some c) (hp : p c = false) : l.dropWhile p = l := by
  cases l with
  | nil => rfl
  | cons a t =>
    simp only [List.head?_cons, Option.some.injEq] at hc
    subst hc
    rw [List.dropWhile_cons, if_neg (by simp [hp])]

theorem trimChars_sentence (n : List Char) (c : Char) (hc : n.head? = some c)
    (hcs : isSpaceChar c = false) :
    trimChars (n ++ (" is a portfolio company of Antler.").data) =
      n ++ (" is a portfolio company of Antler.").data := by
  unfold trimChars
  have h1 : (n ++ (" is a portfolio company of Antler.").data).dropWhile isSpaceChar =
      n ++ (" is a portfolio company of Antler.").data := by
    apply dropWhile_of_head_false _ _ c _ hcs
    rw [List.head?_append, hc]
    rfl
  rw [h1, List.reverse_append]
  have h2 : ((" is a portfolio company of Antler.").data.reverse ++
      n.reverse).dropWhile isSpaceChar =
      (" is a portfolio company of Antler.").data.reverse ++ n.reverse := by
    apply dropWhile_of_head_false _ _ '.'
    · rw [List.head?_append]
      rfl
    · rfl
  rw [h2, ← List.reverse_append, List.reverse_reverse]

theorem jsTrim_eq_self_of (s : String) (h : trimChars s.data = s.data) :
    jsTrim s = s := by
  unfold jsTrim
  rw [h]

theorem jsTrim_fixed_append (name : String) (hname : jsTrim name = name)
    (hne : name ≠ "") :
    jsTrim (name ++ " is a portfolio company of Antler.") =
      name ++ " is a portfolio company of Antler." := by
  have hdata : trimChars name.data = name.data := congrArg String.data hname
  have hdne : name.data ≠ [] := by
    intro hd
    apply hne
    cases name
    simp_all
  obtain ⟨c, rest, hrest⟩ : ∃ c rest, name.data = c :: rest := by
    cases hx : name.data with
    | nil => exact absurd hx hdne
    | cons a b => exact ⟨a, b, rfl⟩
  have hcs : isSpaceChar c = false :=
    trimChars_head_not_space name.data hdata c (by rw [hrest]; rfl)
  apply jsTrim_eq_self_of
  have hcat : (name ++ " is a portfolio company of Antler.").data =
      name.data ++ (" is a portfolio company of Antler.").data := rfl
  rw [hcat]
  exact trimChars_sentence name.data c (by rw [hrest]; rfl) hcs

/-- C9 (amended): when the description fallback chain yields no text of at
least 5 characters, the built record's description is the trim of the
synthesized sentence built from the raw extracted name; whenever that raw
name carries no surrounding whitespace (every source except the untrimmed
image-alt/URL fallbacks) this is exactly
`"{name} is a portfolio company of Antler."` with `{name}` the record's
stored name.  A raw name with trailing whitespace leaves a double space
inside the sentence, so the unqualified claim fails — see the
counterexample.  The Example 2 Nimbus card is included concretely. -/
theorem claim_C9_description_amended :
    (∀ (currentYear : Nat) (website : String) (card : Card) (c : AntlerCompany),
      extractCompanyFromElement currentYear website card = some c →
      (descBeforeSynth card).length < 5 →
      c.description =
        jsTrim (extractName website card ++ " is a portfolio company of Antler.") ∧
      (jsTrim (extractName website card) = extractName website card →
        c.description = c.name ++ " is a portfolio company of Antler.")) ∧
    ((extractCompanyFromElement 2026 "https://nimbus-app.example"
        { emptyCard with headHeading := some "Nimbus" }).map
      (fun c => c.description) =
      some "Nimbus is a portfolio company of Antler.") := by
  constructor
  · intro currentYear website card c h hshort
    obtain ⟨hw1, hw2, hn1, hn2, hc⟩ := extractCompanyFromElement_some h
    subst hc
    have hdesc : extractDescription (extractName website card) card =
        extractName website card ++ " is a portfolio company of Antler." := by
      unfold extractDescription
      rw [if_pos (Or.inr hshort)]
    constructor
    · simp only [hdesc]
    · intro htrim
      simp only [hdesc]
      rw [jsTrim_fixed_append (extractName website card) htrim hn1, htrim]
  · decide

/-- Witness for `claim_C9_description_amended` at a concrete card with no
extractable description. -/
theorem claim_C9_description_amended_witness :
    ((extractCompanyFromElement 2026 "https://aster-app.example"
        { emptyCard with headHeading := some "Aster" }).getD
      (sampleCo "x" "x")).description =
      jsTrim (extractName "https://aster-app.example"
          { emptyCard with headHeading := some "Aster" } ++
        " is a portfolio company of Antler.") :=
  ((claim_C9_description_amended.1 2026 "https://aster-app.example"
    { emptyCard with headHeading := some "Aster" }
    ((extractCompanyFromElement 2026 "https://aster-app.example"
      { emptyCard with headHeading := some "Aster" }).getD (sampleCo "x" "x"))
    (by decide) (by decide)).1)

/-- Counterexample to C9 as stated: a card whose only name source is the
image-alt `" A "` builds a record with name `"A"` but description
`"A  is a portfolio company of Antler."` (double space from the raw
trailing whitespace), which differs from
`"{name} is a portfolio company of Antler."` for the stored name and also
from the raw synthesized sentence (whose leading space the final trim
removed). -/
theorem claim_C9_description_counterexample :
    ((extractCompanyFromElement 2026 "https://wsname.example"
        { emptyCard with imgAlt := some " A " }).map (fun c => c.name) =
      some "A") ∧
    ((extractCompanyFromElement 2026 "https://wsname.example"
        { emptyCard with imgAlt := some " A " }).map (fun c => c.description) =
      some "A  is a portfolio company of Antler.") ∧
    "A  is a portfolio company of Antler." ≠
      "A is a portfolio company of Antler." ∧
    "A  is a portfolio company of Antler." ≠
      " A  is a portfolio company of Antler." :=
  ⟨by decide, by decide, by decide, by decide⟩

/-- C5: a sole placeholder anchor whose text matches both the location and
the sector classifier is classified as a location (location-first priority)
and leaves the sector unset, so the built record's sector falls back to
`"Unknown"`; and the two-anchor card with texts `"Singapore"`, `"FinTech"`
builds a record with `location = "Singapore"` and `sector = "FinTech"`. -/
theorem claim_C5_classifier_priority :
    (∀ t : String, isLocationText (jsTrim t) = true →
      isSectorText (jsTrim t) = true →
      classifyAnchors [t] = (jsTrim t, "")) ∧
    (∀ (currentYear : Nat) (website : String) (card : Card) (c : AntlerCompany)
        (t : String),
      card.hashLinkTexts = [t] →
      isLocationText (jsTrim t) = true →
      isSectorText (jsTrim t) = true →
      extractCompanyFromElement currentYear website card = some c →
      c.location = orElseStr (normalizeLocation (jsTrim t)) "Unknown" ∧
      c.sector = "Unknown") ∧
    ((extractCompanyFromElement 2026 "https://sgfintech.example"
        { emptyCard with headHeading := some "SgFin",
                         hashLinkTexts := ["Singapore", "FinTech"] }).map
      (fun c => (c.location, c.sector)) = some ("Singapore", "FinTech")) := by
  have hone : ∀ t : String, isLocationText (jsTrim t) = true →
      classifyAnchors [t] = (jsTrim t, "") := by
    intro t hloc
    simp [classifyAnchors, hloc]
  have hnonempty : ∀ s : String, isLocationText s = true → s ≠ "" := by
    intro s hs he
    subst he
    exact absurd hs (by decide)
  refine ⟨fun t hloc _ => hone t hloc, ?_, by decide⟩
  intro currentYear website card c t hht hloc hsec h
  obtain ⟨hw1, hw2, hn1, hn2, hc⟩ := extractCompanyFromElement_some h
  subst hc
  have hls : extractLocSector card = (jsTrim t, "") := by
    unfold extractLocSector
    rw [hht, hone t hloc]
    rw [if_neg]
    intro hboth
    exact hnonempty (jsTrim t) hloc hboth.1
  rw [hls]
  exact ⟨rfl, rfl⟩

/-- Witness for `claim_C5_classifier_priority`: the text `"Singapore"`
matches both classifiers and is classified as a location, leaving the
sector `"Unknown"` in the built record. -/
theorem claim_C5_classifier_priority_witness :
    classifyAnchors ["Singapore"] = (jsTrim "Singapore", "") ∧
    (((extractCompanyFromElement 2026 "https://sgonly.example"
        { emptyCard with headHeading := some "SgOnly",
                         hashLinkTexts := ["Singapore"] }).getD
      (sampleCo "x" "x")).location =
        orElseStr (normalizeLocation (jsTrim "Singapore")) "Unknown" ∧
      ((extractCompanyFromElement 2026 "https://sgonly.example"
        { emptyCard with headHeading := some "SgOnly",
                         hashLinkTexts := ["Singapore"] }).getD
      (sampleCo "x" "x")).sector = "Unknown") :=
  ⟨claim_C5_classifier_priority.1 "Singapore" (by decide) (by decide),
   claim_C5_classifier_priority.2.1 2026 "https://sgonly.example"
    { emptyCard with headHeading := some "SgOnly",
                     hashLinkTexts := ["Singapore"] }
    ((extractCompanyFromElement 2026 "https://sgonly.example"
      { emptyCard with headHeading := some "SgOnly",
                       hashLinkTexts := ["Singapore"] }).getD (sampleCo "x" "x"))
    "Singapore" rfl (by decide) (by decide) (by decide)⟩

/-- C6: a built record's `founded_year` is non-zero only when the structural
image-then-year regex matches the card's raw markup with a value passing
the `[1940, currentYear]` check; with no match it is 0; consequently every
record's `founded_year` is 0 or an integer in `[1940, currentYear]`. -/
theorem claim_C6_founded_year (currentYear : Nat) (website : String)
    (card : Card) (c : AntlerCompany)
    (h : extractCompanyFromElement currentYear website card = some c) :
    (structuralYear (extractAttribute card.cardHtml).data = none →
      c.founded_year = 0) ∧
    (c.founded_year ≠ 0 →
      ∃ y, structuralYear (extractAttribute card.cardHtml).data = some y ∧
        c.founded_year = y ∧ 1940 ≤ y ∧ y ≤ currentYear) ∧
    (c.founded_year = 0 ∨
      (1940 ≤ c.founded_year ∧ c.founded_year ≤ currentYear)) := by
  obtain ⟨_, _, _, _, hc⟩ := extractCompanyFromElement_some h
  subst hc
  refine ⟨?_, ?_, ?_⟩
  · intro hnone
    simp [hnone]
  · intro hne
    cases hy : structuralYear (extractAttribute card.cardHtml).data with
    | none => exact absurd (by simp [hy]) hne
    | some y =>
      by_cases hr : 1940 ≤ y ∧ y ≤ currentYear
      · exact ⟨y, rfl, by simp [hr], hr.1, hr.2⟩
      · exact absurd (by simp [hy, hr]) hne
  · cases hy : structuralYear (extractAttribute card.cardHtml).data with
    | none =>
      left
      simp [hy]
    | some y =>
      by_cases hr : 1940 ≤ y ∧ y ≤ currentYear
      · right
        constructor <;> simp [hy, hr]
      · left
        simp [hy, hr]

/-- A concrete card whose markup has an image tag before a year token. -/
def yearCard : Card :=
  { emptyCard with headHeading := some "Yearly",
                   cardHtml := some "<img src=l.png> founded 2021 x" }

/-- Witness for `claim_C6_founded_year` at a concrete card (the built
record's year is 2021, within range). -/
theorem claim_C6_founded_year_witness :
    ((extractCompanyFromElement 2026 "https://yearly.example" yearCard).getD
        (sampleCo "x" "x")).founded_year = 0 ∨
    (1940 ≤ ((extractCompanyFromElement 2026 "https://yearly.example"
        yearCard).getD (sampleCo "x" "x")).founded_year ∧
      ((extractCompanyFromElement 2026 "https://yearly.example" yearCard).getD
        (sampleCo "x" "x")).founded_year ≤ 2026) :=
  (claim_C6_founded_year 2026 "https://yearly.example" yearCard
    ((extractCompanyFromElement 2026 "https://yearly.example" yearCard).getD
      (sampleCo "x" "x")) (by decide)).2.2

example :
    ((extractCompanyFromElement 2026 "https://yearly.example" yearCard).map
      (fun c => c.founded_year)) = some 2021 := by decide

/-- C10: `normalizeLocation` removes one trailing `UK`/`USA`/`US` token
(optionally preceded by a comma and whitespace, case-insensitively) and
trims the result; therefore a record whose classified location text is
exactly `"US"`, `"UK"` or `"USA"` stores the literal `"Unknown"`, even
though `isLocationText` accepted that text as a location. -/
theorem claim_C10_normalize_location :
    (normalizeLocation "US" = "" ∧ normalizeLocation "UK" = "" ∧
      normalizeLocation "USA" = "" ∧ normalizeLocation "usa" = "" ∧
      normalizeLocation "London, UK" = "London" ∧
      normalizeLocation "New York,  usa" = "New York" ∧
      normalizeLocation "Oslo" = "Oslo") ∧
    (isLocationText "US" = true ∧ isLocationText "UK" = true ∧
      isLocationText "USA" = true) ∧
    (∀ (currentYear : Nat) (website : String) (card : Card) (c : AntlerCompany),
      extractCompanyFromElement currentYear website card = some c →
      ((extractLocSector card).1 = "US" ∨ (extractLocSector card).1 = "UK" ∨
        (extractLocSector card).1 = "USA") →
      c.location = "Unknown") := by
  refine ⟨⟨by decide, by decide, by decide, by decide, by decide, by decide,
    by decide⟩, ⟨by decide, by decide, by decide⟩, ?_⟩
  intro currentYear website card c h hloc
  obtain ⟨_, _, _, _, hc⟩ := extractCompanyFromElement_some h
  subst hc
  rcases hloc with h1 | h1 | h1 <;> (show orElseStr _ _ = _) <;> rw [h1] <;> decide

/-- A concrete card whose only placeholder anchor reads `"US"`. -/
def usCard : Card :=
  { emptyCard with headHeading := some "UsCo", hashLinkTexts := ["US"] }

/-- Witness for `claim_C10_normalize_location`: the `"US"`-classified card
stores location `"Unknown"`. -/
theorem claim_C10_normalize_location_witness :
    ((extractCompanyFromElement 2026 "https://usco.example" usCard).getD
      (sampleCo "x" "x")).location = "Unknown" :=
  claim_C10_normalize_location.2.2 2026 "https://usco.example" usCard
    ((extractCompanyFromElement 2026 "https://usco.example" usCard).getD
      (sampleCo "x" "x"))
    (by decide) (Or.inl (by decide))

theorem mem_dedupByHref : ∀ (l : List CandidateElem) (seen : List String)
    (el : CandidateElem), el ∈ dedupByHref l seen → el ∈ l := by
  intro l
  induction l with
  | nil =>
    intro seen el h
    simp [dedupByHref] at h
  | cons a t ih =>
    intro seen el h
    simp only [dedupByHref] at h
    split at h
    · exact List.mem_cons_of_mem _ (ih _ el h)
    · rcases List.mem_cons.mp h with rfl | h2
      · exact List.mem_cons_self _ _
      · exact List.mem_cons_of_mem _ (ih _ el h2)

theorem dedupByHref_nodup : ∀ (l : List CandidateElem) (seen : List String),
    (∀ el ∈ dedupByHref l seen, hrefOf el ∉ seen) ∧
    ((dedupByHref l seen).map hrefOf).Nodup := by
  intro l
  induction l with
  | nil =>
    intro seen
    exact ⟨by simp [dedupByHref], by simp [dedupByHref]⟩
  | cons a t ih =>
    intro seen
    constructor
    · intro el hel
      simp only [dedupByHref] at hel
      split at hel
      · exact (ih seen).1 el hel
      · rename_i hcon
        rcases List.mem_cons.mp hel with rfl | h2
        · intro hmem
          exact hcon (List.elem_iff.mpr hmem)
        · intro hmem
          exact (ih (hrefOf a :: seen)).1 el h2 (List.mem_cons_of_mem _ hmem)
    · simp only [dedupByHref]
      split
      · exact (ih seen).2
      · rw [List.map_cons, List.nodup_cons]
        constructor
        · intro hmem
          obtain ⟨el, hel, helh⟩ := List.mem_map.mp hmem
          exact (ih (hrefOf a :: seen)).1 el hel
            (by rw [helh]; exact List.mem_cons_self _ _)
        · exact (ih (hrefOf a :: seen)).2

theorem mem_scopedCompanyLinks (page : PageDoc) (el : CandidateElem)
    (h : el ∈ scopedCompanyLinks page) :
    strStartsWith (hrefOf el) "https://" = true := by
  unfold scopedCompanyLinks at h
  split at h
  · split at h
    · exact (List.mem_filter.mp h).2
    · exact (List.mem_filter.mp h).2
  · exact (List.mem_filter.mp h).2

/-- C8: every candidate that the per-page loop actually processes has an
href beginning with `"https://"`, of length strictly greater than 10,
containing no denylist fragment (including `mailto:`/`tel:`); within one
page no two processed candidates share the exact href string; and when a
portfolio container with at least one secure-scheme anchor exists, every
processed candidate comes from that container. -/
theorem claim_C8_candidate_discovery :
    (∀ (page : PageDoc) (el : CandidateElem),
      el ∈ dedupByHref (selectCompanyLinks page) [] →
      strStartsWith (hrefOf el) "https://" = true ∧
      (hrefOf el).length > 10 ∧
      (∀ d ∈ denylist, strHasSub (hrefOf el) d = false)) ∧
    (∀ page : PageDoc,
      ((dedupByHref (selectCompanyLinks page) []).map hrefOf).Nodup) ∧
    (∀ (page : PageDoc) (inner : List CandidateElem),
      page.portfolioContainer = some inner →
      (inner.filter (fun a => strStartsWith (hrefOf a) "https://")).length > 0 →
      ∀ el ∈ dedupByHref (selectCompanyLinks page) [], el ∈ inner) := by
  refine ⟨?_, ?_, ?_⟩
  · intro page el h
    have h2 : el ∈ selectCompanyLinks page := mem_dedupByHref _ _ el h
    obtain ⟨hsc, hok⟩ := List.mem_filter.mp h2
    have hhttps := mem_scopedCompanyLinks page el hsc
    simp only [linkOk, Bool.and_eq_true, List.all_eq_true] at hok
    obtain ⟨⟨hne, hall⟩, hlen⟩ := hok
    refine ⟨hhttps, by simpa using hlen, ?_⟩
    intro d hd
    have := hall d hd
    simpa using this
  · intro page
    exact (dedupByHref_nodup (selectCompanyLinks page) []).2
  · intro page inner hport hlen el hel
    have h2 : el ∈ selectCompanyLinks page := mem_dedupByHref _ _ el hel
    obtain ⟨hsc, _⟩ := List.mem_filter.mp h2
    unfold scopedCompanyLinks at hsc
    rw [hport] at hsc
    dsimp only at hsc
    rw [if_pos hlen] at hsc
    exact List.mem_of_mem_filter hsc

/-- Concrete anchors for the discovery witness: two candidates sharing an
href and a denylisted one, all inside a portfolio container. -/
def c8a1 : CandidateElem :=
  { href := some "https://one-co.example/x",
    selfView := { emptyCard with headHeading := some "OneCo" },
    closest := fun _ => none }

def c8a2 : CandidateElem :=
  { href := some "https://one-co.example/x",
    selfView := { emptyCard with headHeading := some "OneCo" },
    closest := fun _ => none }

def c8a3 : CandidateElem :=
  { href := some "https://twitter.com/oneco",
    selfView := { emptyCard with headHeading := some "OneCo" },
    closest := fun _ => none }

def c8page : PageDoc :=
  { anchors := [c8a1, c8a2, c8a3],
    portfolioContainer := some [c8a1, c8a2, c8a3] }

/-- Witness for `claim_C8_candidate_discovery` at a concrete page. -/
theorem claim_C8_candidate_discovery_witness :
    ((dedupByHref (selectCompanyLinks c8page) []).map hrefOf).Nodup ∧
    (∀ el ∈ dedupByHref (selectCompanyLinks c8page) [],
      el ∈ [c8a1, c8a2, c8a3]) :=
  ⟨claim_C8_candidate_discovery.2.1 c8page,
   claim_C8_candidate_discovery.2.2 c8page [c8a1, c8a2, c8a3] rfl (by decide)⟩
